import Mathlib

/-
  Verification development for the portfolio-ui analytics core (src/src/App.jsx).

  Modelling conventions:
  * JS numbers are modelled by `JSNum`: an exact rational together with the three
    special values NaN, Infinity and -Infinity.  Double-precision rounding is
    idealised away (exact rational arithmetic); overflow to Infinity is not
    modelled.
  * JS `Date` objects are modelled by their millisecond timestamp (an `Int`);
    an invalid date is `Option.none`.  The host's local time zone is modelled
    as UTC, matching the spec's "local-calendar-day granularity" scope, so
    `getFullYear`/`getMonth`/`toISOString` all read the same civil calendar.
  * Raw spreadsheet cells (`RawValue`) are null, a number, a string or a Date,
    as produced by the external decoder with `defval: null`.
-/

set_option maxHeartbeats 1000000

/-- A JavaScript number: NaN, +Infinity, -Infinity, or a finite value
(modelled as an exact rational). -/
inductive JSNum where
  | nan : JSNum
  | inf : JSNum
  | ninf : JSNum
  | fin : ℚ → JSNum
deriving DecidableEq, Repr

/-- JS unary negation. -/
def jsNeg : JSNum → JSNum
  | .nan => .nan
  | .inf => .ninf
  | .ninf => .inf
  | .fin q => .fin (-q)

/-- JS addition (IEEE semantics on the special values). -/
def jsAdd : JSNum → JSNum → JSNum
  | .nan, _ => .nan
  | _, .nan => .nan
  | .inf, .ninf => .nan
  | .ninf, .inf => .nan
  | .inf, _ => .inf
  | _, .inf => .inf
  | .ninf, _ => .ninf
  | _, .ninf => .ninf
  | .fin a, .fin b => .fin (a + b)

/-- JS subtraction: addition of the negation. -/
def jsSub (a b : JSNum) : JSNum := jsAdd a (jsNeg b)

/-- JS multiplication (IEEE semantics; `0 * ±∞ = NaN`). -/
def jsMul : JSNum → JSNum → JSNum
  | .nan, _ => .nan
  | _, .nan => .nan
  | .inf, .inf => .inf
  | .inf, .ninf => .ninf
  | .ninf, .inf => .ninf
  | .ninf, .ninf => .inf
  | .inf, .fin b => if 0 < b then .inf else if b < 0 then .ninf else .nan
  | .fin a, .inf => if 0 < a then .inf else if a < 0 then .ninf else .nan
  | .ninf, .fin b => if 0 < b then .ninf else if b < 0 then .inf else .nan
  | .fin a, .ninf => if 0 < a then .ninf else if a < 0 then .inf else .nan
  | .fin a, .fin b => .fin (a * b)

/-- JS division (IEEE semantics; `x/0 = ±∞` for `x ≠ 0`, `0/0 = NaN`,
`∞/∞ = NaN`; the unique JS zero is `+0`, so `∞/0 = +∞`). -/
def jsDiv : JSNum → JSNum → JSNum
  | .nan, _ => .nan
  | _, .nan => .nan
  | .inf, .inf => .nan
  | .inf, .ninf => .nan
  | .ninf, .inf => .nan
  | .ninf, .ninf => .nan
  | .inf, .fin b => if 0 ≤ b then .inf else .ninf
  | .ninf, .fin b => if 0 ≤ b then .ninf else .inf
  | .fin _, .inf => .fin 0
  | .fin _, .ninf => .fin 0
  | .fin a, .fin b =>
      if b = 0 then (if 0 < a then .inf else if a < 0 then .ninf else .nan)
      else .fin (a / b)

/-- `Math.max` on two numbers (NaN-propagating). -/
def jsMax : JSNum → JSNum → JSNum
  | .nan, _ => .nan
  | _, .nan => .nan
  | .inf, _ => .inf
  | _, .inf => .inf
  | .ninf, b => b
  | a, .ninf => a
  | .fin a, .fin b => .fin (max a b)

/-- `Math.min` on two numbers (NaN-propagating). -/
def jsMin : JSNum → JSNum → JSNum
  | .nan, _ => .nan
  | _, .nan => .nan
  | .ninf, _ => .ninf
  | _, .ninf => .ninf
  | .inf, b => b
  | a, .inf => a
  | .fin a, .fin b => .fin (min a b)

/-- `Math.min(...xs)`: fold of `jsMin` starting from `Math.min() = Infinity`. -/
def jsMinList (l : List JSNum) : JSNum := l.foldl jsMin .inf

/-- The JS comparison `a <= b` (false whenever either side is NaN). -/
def jsLeB : JSNum → JSNum → Bool
  | .nan, _ => false
  | _, .nan => false
  | .ninf, _ => true
  | _, .inf => true
  | .inf, _ => false
  | _, .ninf => false
  | .fin a, .fin b => decide (a ≤ b)

/-- `Number.isNaN`. -/
def jsIsNaN : JSNum → Bool
  | .nan => true
  | _ => false

/-- `Number(x.toFixed(2))`: round a finite number to 2 decimal places
(ties away from the smaller value, per the `toFixed` spec); NaN and the
infinities print and re-parse to themselves. -/
def toFixed2 : JSNum → JSNum
  | .nan => .nan
  | .inf => .inf
  | .ninf => .ninf
  | .fin q => .fin ((Rat.floor (q * 100 + 1/2) : Int) / 100)

/- ### Civil (proleptic Gregorian) calendar arithmetic.
These model the calendar computations performed by the host's `Date`
(construction from year/month/day fields, `getFullYear`, `getMonth`,
`toISOString`), with local time modelled as UTC.  The algorithms are the
standard era-based civil calendar conversions. -/

/-- Gregorian leap-year test. -/
def isLeap (y : Int) : Bool := y % 4 = 0 && (y % 100 ≠ 0 || y % 400 = 0)

/-- Number of days in a month of a given year. -/
def daysInMonth (y m : Int) : Int :=
  if m = 2 then (if isLeap y then 29 else 28)
  else if m = 4 ∨ m = 6 ∨ m = 9 ∨ m = 11 then 30
  else 31

/-- Day number (days since 1970-01-01) of a civil date. -/
def daysFromCivil (y m d : Int) : Int :=
  let y' := y - (if m ≤ 2 then 1 else 0)
  let era := y' / 400
  let yoe := y' - era * 400
  let mp := (m + 9) % 12
  let doy := (153 * mp + 2) / 5 + d - 1
  let doe := yoe * 365 + yoe / 4 - yoe / 100 + doy
  era * 146097 + doe - 719468

/-- Number of days, within an era of the March-based civil calendar, that
precede year-of-era `y`. -/
def daysBeforeYoe (y : Int) : Int := 365 * y + y / 4 - y / 100 + y / 400

/-- Civil date (year, month, day) of a day number: the standard era-based
conversion, with the year-of-era located from the lower bound `doe / 366` by
two guarded advances (equivalent to the usual closed-form quotient). -/
def civilFromDays (z : Int) : Int × Int × Int :=
  let n := z + 719468
  let era := n / 146097
  let doe := n - era * 146097
  let y0 := doe / 366
  let y1 := if daysBeforeYoe (y0 + 1) ≤ doe then y0 + 1 else y0
  let yoe := if daysBeforeYoe (y1 + 1) ≤ doe then y1 + 1 else y1
  let y := yoe + era * 400
  let doy := doe - (365 * yoe + yoe / 4 - yoe / 100)
  let mp := (5 * doy + 2) / 153
  let d := doy - (153 * mp + 2) / 5 + 1
  let m := mp + (if mp < 10 then 3 else -9)
  (y + (if m ≤ 2 then 1 else 0), m, d)

/-- `date.getFullYear()` of a timestamp (local time modelled as UTC). -/
def yearOf (ms : Int) : Int := (civilFromDays (ms / 86400000)).1

/-- `date.getMonth() + 1` of a timestamp: the 1-based calendar month. -/
def monthOf (ms : Int) : Int := (civilFromDays (ms / 86400000)).2.1

/-- The calendar-day key `date.toISOString().slice(0, 10)` of a timestamp,
modelled as the UTC day number (two timestamps get the same key iff they fall
on the same UTC calendar day, which is what the YYYY-MM-DD slice expresses
for dates whose year has four digits). -/
def dayKey (ms : Int) : Int := ms / 86400000

/-- The `Date` range bound: timestamps beyond ±8.64e15 ms are invalid. -/
def validMs (ms : Int) : Bool := decide (ms.natAbs ≤ 8640000000000000)

/- ### JS string-to-number coercion (`Number(string)`), over character lists. -/

/-- JS whitespace accepted by `trim` / numeric coercion (ASCII subset). -/
def jsWs (c : Char) : Bool :=
  c = ' ' || c = '\t' || c = '\n' || c = '\r' || c = '\x0b' || c = '\x0c'

/-- Trim JS whitespace from both ends of a character list. -/
def trimWsBoth (cs : List Char) : List Char :=
  ((cs.dropWhile jsWs).reverse.dropWhile jsWs).reverse

/-- Numeric value of a digit/hex-digit character (16 when not a hex digit). -/
def radixVal (c : Char) : Nat :=
  if c.isDigit then c.toNat - 48
  else if 'a' ≤ c ∧ c ≤ 'f' then c.toNat - 87
  else if 'A' ≤ c ∧ c ≤ 'F' then c.toNat - 55
  else 16

/-- Whether a character is a digit of the given base. -/
def radixOk (b : Nat) (c : Char) : Bool := decide (radixVal c < b)

/-- Value of a digit string in a given base. -/
def natOfRadix (b : Nat) (cs : List Char) : Nat :=
  cs.foldl (fun a c => b * a + radixVal c) 0

/-- Value of a decimal digit string. -/
def natOfDigits (cs : List Char) : Nat := natOfRadix 10 cs

/-- Powers of ten, kept kernel-computable. -/
def pow10 (n : Nat) : ℚ := ((10 ^ n : Nat) : ℚ)

/-- Integer powers of ten, kept kernel-computable. -/
def zpow10 : Int → ℚ
  | .ofNat n => pow10 n
  | .negSucc n => 1 / pow10 (n + 1)

/-- Parse the exponent part of a decimal literal: `(+|-)? Digits`, fully. -/
def parseExpPart (cs : List Char) : Option Int :=
  let (sgn, rest) : Int × List Char :=
    match cs with
    | '+' :: r => (1, r)
    | '-' :: r => (-1, r)
    | r => (1, r)
  if rest ≠ [] && rest.all Char.isDigit then some (sgn * (natOfDigits rest : Int))
  else none

/-- Parse an unsigned decimal literal `Digits ('.' Digits?)? | '.' Digits`,
with an optional exponent, matching the whole input. -/
def parseDecCore (cs : List Char) : Option ℚ :=
  let mant := cs.takeWhile (fun c => c ≠ 'e' && c ≠ 'E')
  let expCs := cs.drop mant.length
  let expOk : Option Int :=
    match expCs with
    | [] => some 0
    | _ :: r => parseExpPart r
  match expOk with
  | none => none
  | some e =>
    let intD := mant.takeWhile Char.isDigit
    let rest := mant.drop intD.length
    let fracOk : Option (List Char) :=
      match rest with
      | [] => some []
      | '.' :: f => if f.all Char.isDigit then some f else none
      | _ => none
    match fracOk with
    | none => none
    | some fracD =>
      if intD = [] ∧ fracD = [] then none
      else
        some (((natOfDigits intD : ℚ) + (natOfDigits fracD : ℚ) / pow10 fracD.length)
              * zpow10 e)

/-- Parse an optionally signed decimal literal or `Infinity`, fully. -/
def parseSignedDec (cs : List Char) : JSNum :=
  let (sgn, rest) : ℚ × List Char :=
    match cs with
    | '+' :: r => (1, r)
    | '-' :: r => (-1, r)
    | r => (1, r)
  if rest = "Infinity".data then (if sgn = 1 then .inf else .ninf)
  else
    match parseDecCore rest with
    | some q => .fin (sgn * q)
    | none => .nan

/-- The JS `Number(string)` coercion: trim whitespace; empty is `0`;
a non-decimal integer literal (`0x`/`0o`/`0b`, unsigned) or an optionally
signed decimal literal / `Infinity`; anything else is NaN. -/
def jsStrToNumL (cs0 : List Char) : JSNum :=
  let cs := trimWsBoth cs0
  match cs with
  | [] => .fin 0
  | '0' :: c :: ds =>
    if c = 'x' || c = 'X' then
      (if ds ≠ [] && ds.all (radixOk 16) then .fin (natOfRadix 16 ds : ℚ) else .nan)
    else if c = 'o' || c = 'O' then
      (if ds ≠ [] && ds.all (radixOk 8) then .fin (natOfRadix 8 ds : ℚ) else .nan)
    else if c = 'b' || c = 'B' then
      (if ds ≠ [] && ds.all (radixOk 2) then .fin (natOfRadix 2 ds : ℚ) else .nan)
    else parseSignedDec cs
  | _ => parseSignedDec cs

/-- Whether the first list occurs at the start of the second. -/
def leadsWith : List Char → List Char → Bool
  | [], _ => true
  | _ :: _, [] => false
  | a :: as, b :: bs => a = b && leadsWith as bs

/-- The host `parseFloat`: longest leading decimal-literal piece after
whitespace, `Infinity` allowed; NaN when nothing parses.  (Modelled to the
extent the code exercises it: sign, digits, one dot, optional exponent.) -/
def parseFloatL (cs0 : List Char) : JSNum :=
  let cs := cs0.dropWhile jsWs
  let (sgn, rest) : ℚ × List Char :=
    match cs with
    | '+' :: r => (1, r)
    | '-' :: r => (-1, r)
    | r => (1, r)
  if leadsWith "Infinity".data rest then (if sgn = 1 then .inf else .ninf)
  else
    let intD := rest.takeWhile Char.isDigit
    let r1 := rest.drop intD.length
    let fracD :=
      match r1 with
      | '.' :: f => f.takeWhile Char.isDigit
      | _ => []
    let r2 :=
      match r1 with
      | '.' :: _ => r1.drop (fracD.length + 1)
      | _ => r1
    if intD = [] ∧ fracD = [] then .nan
    else
      let e : Int :=
        match r2 with
        | 'e' :: t => (parseExpPart (t.takeWhile (fun c => c = '+' || c = '-' || c.isDigit))).getD 0
        | 'E' :: t => (parseExpPart (t.takeWhile (fun c => c = '+' || c = '-' || c.isDigit))).getD 0
        | _ => 0
      .fin (sgn * ((natOfDigits intD : ℚ) + (natOfDigits fracD : ℚ) / pow10 fracD.length)
            * zpow10 e)

/-- The source's "pure number" test, regex `^-?\d+(\.\d+)?$`. -/
def pureNumberStr (cs : List Char) : Bool :=
  let rest := match cs with
    | '-' :: r => r
    | r => r
  let intD := rest.takeWhile Char.isDigit
  let r1 := rest.drop intD.length
  intD ≠ [] &&
    (match r1 with
     | [] => true
     | '.' :: f => f ≠ [] && f.all Char.isDigit
     | _ => false)

/- ### Raw cell values and rows. -/

/-- A raw spreadsheet cell value as exposed to the analytics core: null (also
covering undefined/missing cells), a JS number, a string, or a `Date`
(invalid dates carried as `none`). -/
inductive RawValue where
  | null : RawValue
  | num : JSNum → RawValue
  | str : String → RawValue
  | date : Option Int → RawValue
deriving DecidableEq, Repr

/-- A raw row: an object mapping column names to cell values (keys unique,
in insertion order). -/
abbrev Row := List (String × RawValue)

/-- First-match association-list lookup. -/
def lookupA {κ α : Type} [DecidableEq κ] (k : κ) : List (κ × α) → Option α
  | [] => none
  | (k', v) :: rest => if k' = k then some v else lookupA k rest

/-- `row[k]`: a missing property reads as undefined, which the classifiers
treat exactly like null. -/
def rowGet (r : Row) (k : String) : RawValue := (lookupA k r).getD .null

/-- `s.trim().replace(/,/g, "")` on a string, as a character list. -/
def trimStripCommas (s : String) : List Char :=
  (trimWsBoth s.data).filter (fun c => c ≠ ',')

/-- The source's `isNumericLike`: a number that is not NaN, or a string whose
trimmed, comma-stripped form is non-empty and coerces to a non-NaN number;
anything else (null, dates, other objects) is not numeric-like. -/
def isNumericLike : RawValue → Bool
  | .null => false
  | .num v => !(jsIsNaN v)
  | .str s =>
      let t := trimStripCommas s
      t ≠ [] && !(jsIsNaN (jsStrToNumL t))
  | .date _ => false

/-- The nav coercion `Number(String(rawNav).trim().replace(/,/g, ""))`.
For a number, `String` then `Number` round-trips to the same number (a JS
numeric string never contains commas or surrounding whitespace); for null
and `Date` values the stringification is not numeric, giving NaN (such rows
are rejected by `isNumericLike` anyway). -/
def coerceNav : RawValue → JSNum
  | .num v => v
  | .str s => jsStrToNumL (trimStripCommas s)
  | _ => .nan

/- ### Date coercion. -/

/-- Calendar fields decoded from a spreadsheet date serial. -/
structure DateFields where
  y : Int
  m : Int
  d : Int
  H : Int
  M : Int
  S : Int
deriving DecidableEq, Repr

/-- Modelled from the spec: the external spreadsheet serial decoder
(`XLSX.SSF.parse_date_code`, not part of this repository).  Per §4.1 it
decodes a numeric date serial into year/month/day/hour/minute/second fields
when it yields a plausible year: serials in `(0, 2958466)` (calendar years up
to 9999) are decoded against the serial-0 = 1899-12-30 anchor, the fractional
day giving the time fields. -/
def parseDateCode (q : ℚ) : Option DateFields :=
  if 0 < q ∧ q < 2958466 then
    let days : Int := Rat.floor q
    let secs : Int := Rat.floor ((q - (days : ℚ)) * 86400)
    let c := civilFromDays (days - 25569)
    some ⟨c.1, c.2.1, c.2.2, secs / 3600, secs % 3600 / 60, secs % 60⟩
  else none

/-- `new Date(y, m0, d, H, M, S)` (local time modelled as UTC): years 0–99
map to 1900+y, out-of-range month/day fields roll over, and a timestamp
outside the `Date` range gives an invalid date. -/
def jsMakeDate (y m0 d H M S : Int) : Option Int :=
  let y1 := if 0 ≤ y ∧ y ≤ 99 then y + 1900 else y
  let y2 := y1 + m0 / 12
  let m := m0 % 12 + 1
  let ms := (daysFromCivil y2 m 1 + (d - 1)) * 86400000 + (H * 3600 + M * 60 + S) * 1000
  if validMs ms then some ms else none

/-- Truncation toward zero of a rational, as the `Date` constructor applies
to a non-integral millisecond argument. -/
def truncQ (q : ℚ) : Int := if 0 ≤ q then Rat.floor q else -Rat.floor (-q)

/-- `coerceDate` on a number: try the serial decoder first; otherwise (for
any non-NaN number) fall back to the 1899-12-30 day-count anchor,
`ms = (v − 25569) × 86 400 000`.  NaN and ±Infinity yield an invalid date
(`new Date(±Infinity)` is invalid, so both source branches return it). -/
def coerceDateNum : JSNum → Option Int
  | .fin q =>
      match parseDateCode q with
      | some f => jsMakeDate f.y (f.m - 1) f.d f.H f.M f.S
      | none =>
          let ms : Int := truncQ ((q - 25569) * 86400000)
          if validMs ms then some ms else none
  | _ => none

/-- Modelled from the spec: generic calendar-string parsing (`new Date(string)`
via the host `Date.parse`, host-defined beyond the ISO format); modelled for
ISO `YYYY-MM-DD` date strings, interpreted at UTC midnight, with other
formats treated as unparseable. -/
def parseISODate (cs : List Char) : Option Int :=
  match cs with
  | [y1, y2, y3, y4, '-', m1, m2, '-', d1, d2] =>
      if ([y1, y2, y3, y4, m1, m2, d1, d2] : List Char).all Char.isDigit then
        let y : Int := (natOfDigits [y1, y2, y3, y4] : Int)
        let m : Int := (natOfDigits [m1, m2] : Int)
        let d : Int := (natOfDigits [d1, d2] : Int)
        if 1 ≤ m ∧ m ≤ 12 ∧ 1 ≤ d ∧ d ≤ daysInMonth y m then
          some (daysFromCivil y m d * 86400000)
        else none
      else none
  | _ => none

/-- `coerceDate` on a trimmed, non-empty string: a pure-number string goes
through the number path; otherwise generic date-string parsing; otherwise a
`parseFloat` of the leading numeric piece goes through the number path. -/
def coerceDateStr (t : List Char) : Option Int :=
  if pureNumberStr t then coerceDateNum (jsStrToNumL t)
  else
    match parseISODate t with
    | some ms => some ms
    | none =>
        match parseFloatL t with
        | .nan => none
        | v => coerceDateNum v

/-- The source's `coerceDate`, as an optional timestamp (none = invalid date). -/
def coerceDate : RawValue → Option Int
  | .null => none
  | .date o => o
  | .num v => coerceDateNum v
  | .str s =>
      let t := trimWsBoth s.data
      if t = [] then none else coerceDateStr t

/-- The source's `isDateLike`: the coercion did not produce an invalid date. -/
def isDateLike (v : RawValue) : Bool := (coerceDate v).isSome

/- ### Column inference. -/

/-- Per-key sample score. -/
structure Score where
  key : String
  dateCount : Nat
  numCount : Nat
deriving DecidableEq, Repr

/-- Per-key date-likeness / numeric-likeness counts over the first
`min(50, rowCount)` rows, for the keys of the first row. -/
def scoreKeys (rows : List Row) : List Score :=
  match rows with
  | [] => []
  | r0 :: _ =>
      let sample := rows.take (min rows.length 50)
      (r0.map Prod.fst).map fun k =>
        ⟨k, (sample.filter (fun r => isDateLike (rowGet r k))).length,
            (sample.filter (fun r => isNumericLike (rowGet r k))).length⟩

/-- The stable descending sort by a count, as the source's
`sort((a, b) => b.count - a.count)` (JS sort is stable; insertion sort with
this relation keeps earlier elements first on ties). -/
def sortByCountDesc (cnt : Score → Nat) (l : List Score) : List Score :=
  l.insertionSort (fun a b => cnt b ≤ cnt a)

/-- JS falsiness of a selected key (`!dateKey`): null or the empty string. -/
def keyFalsy : Option String → Bool
  | none => true
  | some s => s = ""

/-- One column selection of `detectColumns`: head of the stably
descending-sorted candidates meeting the threshold; if that key is falsy
(no candidate, or the `""` key), fall back to the overall best provided its
count is positive. -/
def codeSelect (cnt : Score → Nat) (threshold : Nat) (scores : List Score) : Option String :=
  let candidates := sortByCountDesc cnt (scores.filter (fun s => decide (threshold ≤ cnt s)))
  let k0 := candidates.head?.map (·.key)
  if keyFalsy k0 then
    match (sortByCountDesc cnt scores).head? with
    | some best => if 0 < cnt best then some best.key else k0
    | none => k0
  else k0

/-- The source's `detectColumns`: the detected (date, nav) keys.  The
threshold is `Math.ceil(sampleSize * 0.6)`; for sample sizes up to 50 the
double-precision product rounds so that this equals the exact
`⌈3·sampleSize/5⌉ = (3·sampleSize + 4) / 5`. -/
def detectColumns (rows : List Row) : Option String × Option String :=
  match rows with
  | [] => (none, none)
  | _ :: _ =>
      let sampleSize := min rows.length 50
      let scores := scoreKeys rows
      let threshold := (3 * sampleSize + 4) / 5
      (codeSelect (·.dateCount) threshold scores, codeSelect (·.numCount) threshold scores)

/- ### Series builder. -/

/-- A cleaned record: valid timestamp and non-NaN nav. -/
structure Rec where
  ms : Int
  nav : JSNum
deriving DecidableEq, Repr

/-- One iteration of the series builder's cleaning loop: coerce the date
(skip if invalid), require `isNumericLike`, coerce the nav and require it
non-NaN. -/
def cleanRow (dateKey navKey : String) (r : Row) : Option Rec :=
  match coerceDate (rowGet r dateKey) with
  | none => none
  | some ms =>
      if isNumericLike (rowGet r navKey) then
        let nav := coerceNav (rowGet r navKey)
        if jsIsNaN nav then none else some ⟨ms, nav⟩
      else none

/-- The kept (date, nav) records of the row sequence, in original row order. -/
def keptRecs (rows : List Row) (dateKey navKey : String) : List Rec :=
  rows.filterMap (cleanRow dateKey navKey)

/-- `map.set` on an association list: overwrite in place when the key is
present (a JS `Map` keeps the original key position), append otherwise. -/
def mapSet {κ α : Type} [DecidableEq κ] (k : κ) (v : α) (m : List (κ × α)) : List (κ × α) :=
  if m.any (fun e => decide (e.1 = k)) then
    m.map (fun e => if e.1 = k then (e.1, v) else e)
  else m ++ [(k, v)]

/-- The `mapByDate` map of the series builder: each kept record stored under
its calendar-day key, later rows overwriting earlier ones. -/
def mapByDate (rows : List Row) (dateKey navKey : String) : List (Int × Rec) :=
  (keptRecs rows dateKey navKey).foldl (fun m r => mapSet (dayKey r.ms) r m) []

/-- The cleaned records: the map's values sorted ascending by timestamp
(`(a, b) => +a.date - +b.date`; no two stored values share a timestamp, so
any correct sort produces this order). -/
def cleanRecs (rows : List Row) (dateKey navKey : String) : List Rec :=
  ((mapByDate rows dateKey navKey).map Prod.snd).insertionSort (fun a b => a.ms ≤ b.ms)

/-- A point of the built series. -/
structure SPoint where
  ms : Int
  nav : JSNum
  equity : JSNum
  drawdown : JSNum
deriving DecidableEq, Repr

/-- The period return of the equity walk: `nav/prev − 1` when there is a
previous nav and it is nonzero, else 0. -/
def retOf (prevNav : Option JSNum) (nav : JSNum) : JSNum :=
  match prevNav with
  | some p => if p ≠ .fin 0 then jsSub (jsDiv nav p) (.fin 1) else .fin 0
  | none => .fin 0

/-- The equity/peak/drawdown walk over the cleaned records, carrying the
running full-precision equity, the running peak and the previous nav.  The
stored equity and drawdown go through `toFixed(2)`. -/
def seriesWalk : List Rec → JSNum → JSNum → Option JSNum → List SPoint
  | [], _, _, _ => []
  | c :: rest, equity, peak, prevNav =>
      let ret := retOf prevNav c.nav
      let equity1 := jsMul equity (jsAdd (.fin 1) ret)
      let peak1 := jsMax peak equity1
      let dd := jsSub (jsDiv equity1 peak1) (.fin 1)
      ⟨c.ms, c.nav, toFixed2 equity1, toFixed2 (jsMul dd (.fin 100))⟩
        :: seriesWalk rest equity1 peak1 (some c.nav)

/-- The source's `toSeries` (`!dateKey`/`!navKey` are JS-falsy for the empty
string as well as null, so an empty-string key also returns the empty
series). -/
def toSeries (rows : List Row) (dateKey navKey : String) : List SPoint :=
  if rows = [] ∨ dateKey = "" ∨ navKey = "" then []
  else seriesWalk (cleanRecs rows dateKey navKey) (.fin 100) (.fin 100) none

/- ### Returns analytics. -/

/-- The fixed lookback windows, in calendar days. -/
def lookbackPeriods : List (String × Int) :=
  [("1D", 1), ("1W", 7), ("1M", 30), ("3M", 90), ("6M", 180),
   ("1Y", 365), ("3Y", 365 * 3), ("5Y", 365 * 5)]

/-- The source's `findClosest`: scan the series backward for the first point
at or before `endDate − days` calendar days (`setDate` arithmetic, which in
the UTC model is exact millisecond day subtraction). -/
def findClosest (series : List SPoint) (endMs : Int) (days : Int) : Option SPoint :=
  let target := endMs - days * 86400000
  series.reverse.find? (fun p => decide (p.ms ≤ target))

/-- The source's `calculateYTD`: return from the first point at or after
`new Date(latest.getFullYear(), 0, 1)`; null when there is none.  The year
start is built with the multi-argument `Date` constructor (`jsMakeDate`), so
years 0–99 remap to 1900+y, and an out-of-range year start is an invalid
date, whose comparison is always false.  (The source only calls it on a
non-empty series; the empty case is total here.) -/
def calculateYTD (series : List SPoint) : Option JSNum :=
  match series.getLast? with
  | none => none
  | some latest =>
      match jsMakeDate (yearOf latest.ms) 0 1 0 0 0 with
      | none => none
      | some yearStart =>
          match series.find? (fun p => decide (yearStart ≤ p.ms)) with
          | none => none
          | some start => some (jsSub (jsDiv latest.nav start.nav) (.fin 1))

/-- The trailing-returns result object; a field absent from the source's `{}`
result reads as undefined, modelled as `none` / the empty period list. -/
structure TrailingReturns where
  ytd : Option JSNum
  periods : List (String × Option JSNum)
  si : Option JSNum
  dd : Option JSNum
  maxDD : Option JSNum
deriving DecidableEq, Repr

/-- The `{}` returned for an empty series. -/
def emptyTrailing : TrailingReturns := ⟨none, [], none, none, none⟩

/-- The source's `calculateTrailingReturns`. -/
def calculateTrailingReturns (series : List SPoint) : TrailingReturns :=
  match series with
  | [] => emptyTrailing
  | first :: _ =>
      let latest := series.getLast?.getD first
      let endMs := latest.ms
      let endNav := latest.nav
      { ytd := calculateYTD series
        periods := lookbackPeriods.map fun ld =>
          (ld.1, (findClosest series endMs ld.2).map fun past =>
                    jsSub (jsDiv endNav past.nav) (.fin 1))
        si := some (jsSub (jsDiv endNav first.nav) (.fin 1))
        dd := some (jsDiv latest.drawdown (.fin 100))
        maxDD := some (jsDiv (jsMinList (series.map (·.drawdown))) (.fin 100)) }

/- ### Monthly grid. -/

/-- A per-bucket row of the monthly computation. -/
structure MonthRow where
  year : Int
  month : Int
  nav : JSNum
  ret : Option JSNum
deriving DecidableEq, Repr

/-- A per-year output row: twelve month slots (January first) and the YTD
compounding. -/
structure YearRow where
  year : Int
  cells : List (Option JSNum)
  ytd : Option JSNum
deriving DecidableEq, Repr

/-- `lastByMonth`: last nav per (year, month) bucket, by overwriting in
series order (a JS `Map` keyed by the `YYYY-MM` string; distinct buckets
give distinct keys). -/
def lastByMonth (series : List SPoint) : List ((Int × Int) × JSNum) :=
  series.foldl (fun m p => mapSet (yearOf p.ms, monthOf p.ms) p.nav m) []

/-- `[...new Set(xs)]`: deduplicate keeping first occurrences. -/
def dedupKeepFirst {α : Type} [DecidableEq α] : List α → List α
  | [] => []
  | x :: xs => x :: (dedupKeepFirst xs).filter (fun a => decide (a ≠ x))

/-- The month names of the output header. -/
def monthNames : List String :=
  ["Jan", "Feb", "Mar", "Apr", "May", "Jun",
   "Jul", "Aug", "Sep", "Oct", "Nov", "Dec"]

/-- The source's `monthlyReturns`.  The `YYYY-MM` string keys sort
lexicographically, which for four-digit years is the (year, month) order
used here; downstream consumption is order-independent anyway (lookups are
by the unique (year, month) pair, and years are re-sorted). -/
def mrKeys (series : List SPoint) : List (Int × Int) :=
  ((lastByMonth series).map Prod.fst).insertionSort
    (fun a b => a.1 < b.1 ∨ (a.1 = b.1 ∧ a.2 ≤ b.2))

/-- One bucket row: the bucket's stored nav and its month-over-month return
against the immediately preceding calendar month (December of the previous
year for January), unavailable when that month is absent or its nav is 0. -/
def mrRowFn (series : List SPoint) (k : Int × Int) : MonthRow :=
  let y := k.1
  let m := k.2
  let val := (lookupA k (lastByMonth series)).getD .nan
  let prevKey := if 1 < m then (y, m - 1) else (y - 1, 12)
  let mom : Option JSNum :=
    match lookupA prevKey (lastByMonth series) with
    | some pv => if pv ≠ .fin 0 then some (jsSub (jsDiv val pv) (.fin 1)) else none
    | none => none
  ⟨y, m, val, mom⟩

/-- The bucket rows, in sorted key order. -/
def mrRows (series : List SPoint) : List MonthRow :=
  (mrKeys series).map (mrRowFn series)

/-- The distinct years of the bucket rows, latest first. -/
def mrYears (series : List SPoint) : List Int :=
  (dedupKeepFirst ((mrRows series).map (·.year))).insertionSort (fun a b => b ≤ a)

/-- One YTD-accumulator step: multiply in `1 + r` when the month's return is
present, and record that some month was seen. -/
def ytdStep (a : JSNum × Bool) (c : Option JSNum) : JSNum × Bool :=
  match c with
  | some v => (jsMul a.1 (jsAdd (.fin 1) v), true)
  | none => a

/-- One output year row: the twelve month cells (via `rows.find`) and the
YTD compounding over the present cells. -/
def mrYearRow (series : List SPoint) (y : Int) : YearRow :=
  let cells := (List.range 12).map fun idx : Nat =>
    match (mrRows series).find? (fun r => decide (r.year = y ∧ r.month = (idx : Int) + 1)) with
    | some rr => rr.ret
    | none => none
  let acc := cells.foldl ytdStep (.fin 1, false)
  ⟨y, cells, if acc.2 then some (jsSub acc.1 (.fin 1)) else none⟩

def monthlyReturns (series : List SPoint) : List YearRow × List String :=
  match series with
  | [] => ([], [])
  | _ :: _ => ((mrYears series).map (mrYearRow series), monthNames)

/- ### Derived and specification-side definitions used by the theorems. -/

/-- The internal (full-precision) state stream of the equity walk: for each
point, the running equity and running peak before any rounding. -/
def scanEP : List Rec → JSNum → JSNum → Option JSNum → List (JSNum × JSNum)
  | [], _, _, _ => []
  | c :: rest, equity, peak, prevNav =>
      let ret := retOf prevNav c.nav
      let equity1 := jsMul equity (jsAdd (.fin 1) ret)
      let peak1 := jsMax peak equity1
      (equity1, peak1) :: scanEP rest equity1 peak1 (some c.nav)

/-- The internal full-precision equity sequence of a built series. -/
def equityInternal (rows : List Row) (dateKey navKey : String) : List JSNum :=
  (scanEP (cleanRecs rows dateKey navKey) (.fin 100) (.fin 100) none).map Prod.fst

/-- The internal running-peak sequence of a built series. -/
def peakInternal (rows : List Row) (dateKey navKey : String) : List JSNum :=
  (scanEP (cleanRecs rows dateKey navKey) (.fin 100) (.fin 100) none).map Prod.snd

/-- Specification-side: the last series point at or before a target
timestamp (under the builder's sorting, the most recent such point). -/
def latestAtOrBefore (series : List SPoint) (t : Int) : Option SPoint :=
  (series.filter (fun p => decide (p.ms ≤ t))).getLast?

/-- Specification-side: the month representative of a (year, month) bucket —
the nav of the last series point falling in that bucket. -/
def monthRep (series : List SPoint) (k : Int × Int) : Option JSNum :=
  ((series.filter (fun p => decide ((yearOf p.ms, monthOf p.ms) = k))).getLast?).map (·.nav)

/-- Specification-side: the month cell of year `y`, month `m`, as claim C6
words it — representative over previous-calendar-month representative minus
one, unavailable when the month itself is absent, or the preceding month is
absent, or the preceding month's representative is zero. -/
def specMonthCell (series : List SPoint) (y m : Int) : Option JSNum :=
  match monthRep series (y, m) with
  | none => none
  | some val =>
      match monthRep series (if 1 < m then (y, m - 1) else (y - 1, 12)) with
      | some pv => if pv ≠ .fin 0 then some (jsSub (jsDiv val pv) (.fin 1)) else none
      | none => none

/-- Specification-side: the year's YTD as claim C6 words it — the product of
`1 + r` over the present month returns in chronological order, minus one;
unavailable when no month of the year has a return. -/
def specYTD (cells : List (Option JSNum)) : Option JSNum :=
  match cells.filterMap id with
  | [] => none
  | rs => some (jsSub (rs.foldl (fun a v => jsMul a (jsAdd (.fin 1) v)) (.fin 1)) (.fin 1))

/-- Specification-side: the highest-count score, ties broken by first
occurrence in key order. -/
def argmaxFirst (cnt : Score → Nat) : List Score → Option Score
  | [] => none
  | x :: xs =>
      match argmaxFirst cnt xs with
      | none => some x
      | some y => if cnt x < cnt y then some y else some x

/-- Specification-side column selection, as the claim words it: among the
columns whose count meets the threshold, the one with the highest count
(ties broken by first occurrence in key order); if none meets the threshold,
the single highest nonzero count; if all counts are zero, none. -/
def selectColumnSpec (cnt : Score → Nat) (threshold : Nat) (scores : List Score) : Option String :=
  match argmaxFirst cnt (scores.filter (fun s => decide (threshold ≤ cnt s))) with
  | some s => some s.key
  | none =>
      match argmaxFirst cnt scores with
      | some b => if 0 < cnt b then some b.key else none
      | none => none

/-- `Number.isFinite`. -/
def jsIsFinite : JSNum → Bool
  | .fin _ => true
  | _ => false

/-- Specification-side numeric classifier exactly as claim C8 words it: a
finite number, or a string that is non-empty after trimming whitespace and
stripping thousands separators and that parses as a finite number. -/
def claimNumericLike : RawValue → Bool
  | .null => false
  | .num v => jsIsFinite v
  | .str s =>
      let t := trimStripCommas s
      t ≠ [] && jsIsFinite (jsStrToNumL t)
  | .date _ => false


/- ### Calendar lemmas: January 1 of a timestamp's year is at or before it. -/

theorem janle_case (z era doe yoe : ℤ)
    (hdoe : z + 719468 = era * 146097 + doe) (h0 : 0 ≤ doe) (h1 : doe < 146097)
    (hy : 0 ≤ yoe) (hy2 : yoe ≤ 399)
    (hB : 365 * yoe + yoe / 4 - yoe / 100 + yoe / 400 ≤ doe) :
    daysFromCivil (yoe + era * 400 +
      (if (5 * (doe - (365 * yoe + yoe / 4 - yoe / 100)) + 2) / 153
          + (if (5 * (doe - (365 * yoe + yoe / 4 - yoe / 100)) + 2) / 153 < 10 then 3 else -9)
          ≤ 2
       then 1 else 0)) 1 1 ≤ z := by
  set mp := (5 * (doe - (365 * yoe + yoe / 4 - yoe / 100)) + 2) / 153 with hmp
  by_cases hm : mp + (if mp < 10 then 3 else -9) ≤ 2
  · rw [if_pos hm]
    have hmp10 : 10 ≤ mp := by
      by_cases h10 : mp < 10
      · rw [if_pos h10] at hm
        exfalso
        omega
      · omega
    have hkey : 365 * yoe + yoe / 4 - yoe / 100 + 306 ≤ doe := by omega
    unfold daysFromCivil
    dsimp only
    rw [if_pos (by norm_num : (1:ℤ) ≤ 2)]
    rw [show yoe + era * 400 + 1 - 1 = yoe + era * 400 from by ring]
    rw [show (yoe + era * 400) / 400 = era from by omega]
    rw [show yoe + era * 400 - era * 400 = yoe from by ring]
    omega
  · rw [if_neg hm]
    unfold daysFromCivil
    dsimp only
    split_ifs <;> omega

theorem jan1_day_le (z : Int) : daysFromCivil (civilFromDays z).1 1 1 ≤ z := by
  unfold civilFromDays
  dsimp only
  set era := (z + 719468) / 146097 with hera
  set doe := z + 719468 - era * 146097 with hdoe
  set y0 := doe / 366 with hy0
  clear_value era doe y0
  have hdoe0 : 0 ≤ doe := by omega
  have hdoe1 : doe < 146097 := by omega
  have hzdoe : z + 719468 = era * 146097 + doe := by omega
  have hy00 : 0 ≤ y0 := by omega
  have hy0b : y0 ≤ 399 := by omega
  by_cases hg1 : daysBeforeYoe (y0 + 1) ≤ doe
  · rw [if_pos hg1]
    by_cases hg2 : daysBeforeYoe (y0 + 1 + 1) ≤ doe
    · rw [if_pos hg2]
      unfold daysBeforeYoe at hg2
      exact janle_case z era doe (y0 + 1 + 1) hzdoe hdoe0 hdoe1 (by omega) (by omega) (by omega)
    · rw [if_neg hg2]
      unfold daysBeforeYoe at hg1
      exact janle_case z era doe (y0 + 1) hzdoe hdoe0 hdoe1 (by omega) (by omega) (by omega)
  · rw [if_neg hg1, if_neg hg1]
    refine janle_case z era doe y0 hzdoe hdoe0 hdoe1 hy00 hy0b ?_
    omega

theorem jan1_le_self (ms : Int) : daysFromCivil (yearOf ms) 1 1 * 86400000 ≤ ms := by
  have h := jan1_day_le (ms / 86400000)
  unfold yearOf
  have hms : ms / 86400000 * 86400000 ≤ ms := Int.ediv_mul_le ms (by norm_num)
  nlinarith [h, hms]

theorem janlt_case (z era doe yoe : ℤ)
    (hdoe : z + 719468 = era * 146097 + doe) (h0 : 0 ≤ doe) (h1 : doe < 146097)
    (hy : 0 ≤ yoe) (hy2 : yoe ≤ 399)
    (hB : 365 * yoe + yoe / 4 - yoe / 100 + yoe / 400 ≤ doe)
    (hBup : doe < 365 * (yoe + 1) + (yoe + 1) / 4 - (yoe + 1) / 100 + (yoe + 1) / 400) :
    z < daysFromCivil (yoe + era * 400 +
      (if (5 * (doe - (365 * yoe + yoe / 4 - yoe / 100)) + 2) / 153
          + (if (5 * (doe - (365 * yoe + yoe / 4 - yoe / 100)) + 2) / 153 < 10 then 3 else -9)
          ≤ 2
       then 1 else 0) + 1) 1 1 := by
  set mp := (5 * (doe - (365 * yoe + yoe / 4 - yoe / 100)) + 2) / 153 with hmp
  by_cases hm : mp + (if mp < 10 then 3 else -9) ≤ 2
  · rw [if_pos hm]
    by_cases hyoe : yoe ≤ 398
    · unfold daysFromCivil
      dsimp only
      rw [if_pos (by norm_num : (1:ℤ) ≤ 2)]
      rw [show yoe + era * 400 + 1 + 1 - 1 = (yoe + 1) + era * 400 from by ring]
      rw [show ((yoe + 1) + era * 400) / 400 = era from by omega]
      rw [show (yoe + 1) + era * 400 - era * 400 = yoe + 1 from by ring]
      omega
    · have hyoe399 : yoe = 399 := by omega
      subst hyoe399
      unfold daysFromCivil
      dsimp only
      rw [if_pos (by norm_num : (1:ℤ) ≤ 2)]
      rw [show (399:ℤ) + era * 400 + 1 + 1 - 1 = (era + 1) * 400 from by ring]
      rw [show ((era + 1) * 400) / 400 = era + 1 from by omega]
      rw [show (era + 1) * 400 - (era + 1) * 400 = 0 from by ring]
      omega
  · rw [if_neg hm]
    have hdoy0 : 0 ≤ doe - (365 * yoe + yoe / 4 - yoe / 100) := by omega
    have hmp9 : mp ≤ 9 := by
      by_cases h10 : mp < 10
      · omega
      · rw [if_neg h10] at hm
        exfalso
        have hdoyub : doe - (365 * yoe + yoe / 4 - yoe / 100) ≤ 366 := by omega
        omega
    have hdoy305 : doe - (365 * yoe + yoe / 4 - yoe / 100) ≤ 305 := by omega
    unfold daysFromCivil
    dsimp only
    rw [if_pos (by norm_num : (1:ℤ) ≤ 2)]
    rw [show yoe + era * 400 + 0 + 1 - 1 = yoe + era * 400 from by ring]
    rw [show (yoe + era * 400) / 400 = era from by omega]
    rw [show yoe + era * 400 - era * 400 = yoe from by ring]
    omega

theorem jan1_next_gt (z : Int) : z < daysFromCivil ((civilFromDays z).1 + 1) 1 1 := by
  unfold civilFromDays
  dsimp only
  set era := (z + 719468) / 146097 with hera
  set doe := z + 719468 - era * 146097 with hdoe
  set y0 := doe / 366 with hy0
  clear_value era doe y0
  have hdoe0 : 0 ≤ doe := by omega
  have hdoe1 : doe < 146097 := by omega
  have hzdoe : z + 719468 = era * 146097 + doe := by omega
  have hy00 : 0 ≤ y0 := by omega
  have hy0b : y0 ≤ 399 := by omega
  by_cases hg1 : daysBeforeYoe (y0 + 1) ≤ doe
  · rw [if_pos hg1]
    by_cases hg2 : daysBeforeYoe (y0 + 1 + 1) ≤ doe
    · rw [if_pos hg2]
      unfold daysBeforeYoe at hg2
      refine janlt_case z era doe (y0 + 1 + 1) hzdoe hdoe0 hdoe1 (by omega) (by omega)
        (by omega) ?_
      omega
    · rw [if_neg hg2]
      unfold daysBeforeYoe at hg1 hg2
      exact janlt_case z era doe (y0 + 1) hzdoe hdoe0 hdoe1 (by omega) (by omega)
        (by omega) (by omega)
  · rw [if_neg hg1, if_neg hg1]
    unfold daysBeforeYoe at hg1
    refine janlt_case z era doe y0 hzdoe hdoe0 hdoe1 hy00 hy0b ?_ (by omega)
    omega

theorem jan1_remap_gap (y : Int) (h0 : 0 ≤ y) (h1 : y ≤ 99) :
    daysFromCivil (y + 1) 1 1 ≤ daysFromCivil (y + 1900) 1 1 := by
  unfold daysFromCivil
  dsimp only
  rw [if_pos (by norm_num : (1:ℤ) ≤ 2)]
  omega

theorem jan1_remap_validMs (y : Int) (h0 : 0 ≤ y) (h1 : y ≤ 99) :
    validMs (daysFromCivil (y + 1900) 1 1 * 86400000) = true := by
  unfold validMs daysFromCivil
  dsimp only
  rw [if_pos (by norm_num : (1:ℤ) ≤ 2)]
  rw [decide_eq_true_eq]
  omega

theorem remap_year_start_after (ms : Int) (h0 : 0 ≤ yearOf ms) (h1 : yearOf ms ≤ 99) :
    ms < daysFromCivil (yearOf ms + 1900) 1 1 * 86400000 := by
  have hlt : ms / 86400000 < daysFromCivil (yearOf ms + 1) 1 1 := jan1_next_gt (ms / 86400000)
  have hg := jan1_remap_gap (yearOf ms) h0 h1
  have hb : ms / 86400000 + 1 ≤ daysFromCivil (yearOf ms + 1900) 1 1 := by omega
  have hup : ms < (ms / 86400000 + 1) * 86400000 := by omega
  calc ms < (ms / 86400000 + 1) * 86400000 := hup
    _ ≤ daysFromCivil (yearOf ms + 1900) 1 1 * 86400000 :=
        mul_le_mul_of_nonneg_right hb (by norm_num)

/- ### Generic lemmas: association-map model, backward scan, sortedness. -/

theorem lookupA_cons {κ α : Type} [DecidableEq κ] (k k' : κ) (v : α) (m : List (κ × α)) :
    lookupA k ((k', v) :: m) = if k' = k then some v else lookupA k m := rfl

theorem lookupA_append_single {κ α : Type} [DecidableEq κ] (k : κ) (m : List (κ × α))
    (e : κ × α) :
    lookupA k (m ++ [e]) = (lookupA k m).or (if e.1 = k then some e.2 else none) := by
  induction m with
  | nil => simp [lookupA, Option.or]
  | cons x xs ih =>
      obtain ⟨a, b⟩ := x
      by_cases h : a = k <;> simp [lookupA_cons, h, ih, Option.or]

theorem any_key_eq_isSome {κ α : Type} [DecidableEq κ] (k : κ) (m : List (κ × α)) :
    m.any (fun e => decide (e.1 = k)) = (lookupA k m).isSome := by
  induction m with
  | nil => simp [lookupA]
  | cons x xs ih =>
      obtain ⟨a, b⟩ := x
      by_cases h : a = k <;> simp [lookupA_cons, h, ih]

theorem lookupA_map_subst_ne {κ α : Type} [DecidableEq κ] {k k' : κ} (hne : k' ≠ k)
    (v : α) (m : List (κ × α)) :
    lookupA k (m.map fun e => if e.1 = k' then (e.1, v) else e) = lookupA k m := by
  induction m with
  | nil => rfl
  | cons x xs ih =>
      obtain ⟨a, b⟩ := x
      by_cases h : a = k'
      · subst h
        simp [lookupA_cons, hne, ih]
      · simp [lookupA_cons, h, ih]

theorem lookupA_map_subst_self {κ α : Type} [DecidableEq κ] (k' : κ) (v : α)
    (m : List (κ × α)) :
    lookupA k' (m.map fun e => if e.1 = k' then (e.1, v) else e)
      = if (lookupA k' m).isSome then some v else none := by
  induction m with
  | nil => rfl
  | cons x xs ih =>
      obtain ⟨a, b⟩ := x
      by_cases h : a = k' <;> simp [lookupA_cons, h, ih]

theorem lookupA_none_of_not_any {κ α : Type} [DecidableEq κ] {k : κ} {m : List (κ × α)}
    (hmem : ¬m.any (fun e => decide (e.1 = k)) = true) : lookupA k m = none := by
  cases ho : lookupA k m with
  | none => rfl
  | some w =>
      rw [any_key_eq_isSome, ho] at hmem
      simp at hmem

theorem lookupA_mapSet {κ α : Type} [DecidableEq κ] (k k' : κ) (v : α) (m : List (κ × α)) :
    lookupA k (mapSet k' v m) = if k' = k then some v else lookupA k m := by
  unfold mapSet
  by_cases hmem : m.any (fun e => decide (e.1 = k'))
  · rw [if_pos hmem]
    by_cases hk : k' = k
    · subst hk
      rw [if_pos rfl, lookupA_map_subst_self]
      rw [any_key_eq_isSome] at hmem
      simp [hmem]
    · rw [if_neg hk, lookupA_map_subst_ne hk]
  · rw [if_neg hmem, lookupA_append_single]
    have hnone : lookupA k' m = none := lookupA_none_of_not_any hmem
    by_cases hk : k' = k
    · subst hk
      simp [hnone, Option.or]
    · rw [if_neg hk]
      cases ho : lookupA k m <;> simp [Option.or, hk, ho]

theorem lookupA_foldl_mapSet {β κ α : Type} [DecidableEq κ]
    (key : β → κ) (val : β → α) (k : κ) :
    ∀ (l : List β) (m0 : List (κ × α)),
      lookupA k (l.foldl (fun m x => mapSet (key x) (val x) m) m0)
        = match (l.filter (fun x => decide (key x = k))).getLast? with
          | some x => some (val x)
          | none => lookupA k m0 := by
  intro l
  induction l with
  | nil => intro m0; rfl
  | cons x xs ih =>
      intro m0
      rw [List.foldl_cons, ih, List.filter_cons]
      by_cases h : key x = k
      · rw [if_pos (by simpa using h)]
        cases hl : xs.filter (fun x => decide (key x = k)) with
        | nil => simp [hl, lookupA_mapSet, h]
        | cons z zs => simp [hl, List.getLast?_cons]
      · rw [if_neg (by simpa using h)]
        cases hl : (xs.filter fun x => decide (key x = k)).getLast? with
        | some y => simp [hl]
        | none => simp [hl, lookupA_mapSet, h]

theorem mapSet_map_fst {κ α : Type} [DecidableEq κ] (k : κ) (v : α) (m : List (κ × α)) :
    (mapSet k v m).map Prod.fst
      = if m.any (fun e => decide (e.1 = k)) then m.map Prod.fst
        else m.map Prod.fst ++ [k] := by
  unfold mapSet
  by_cases hmem : m.any (fun e => decide (e.1 = k))
  · rw [if_pos hmem, if_pos hmem, List.map_map]
    congr 1
    funext e
    by_cases h : e.1 = k <;> simp [h]
  · rw [if_neg hmem, if_neg hmem]
    simp

theorem mapSet_fresh_key {κ α : Type} [DecidableEq κ] {k : κ} {m : List (κ × α)}
    (h : ¬m.any (fun e => decide (e.1 = k)) = true) : k ∉ m.map Prod.fst := by
  intro hk
  rw [List.mem_map] at hk
  obtain ⟨e, he, hek⟩ := hk
  exact h (List.any_eq_true.mpr ⟨e, he, by simp [hek]⟩)

theorem nodup_fst_mapSet {κ α : Type} [DecidableEq κ] (k : κ) (v : α) {m : List (κ × α)}
    (h : (m.map Prod.fst).Nodup) : ((mapSet k v m).map Prod.fst).Nodup := by
  rw [mapSet_map_fst]
  by_cases hmem : m.any (fun e => decide (e.1 = k))
  · rw [if_pos hmem]; exact h
  · rw [if_neg hmem, ← List.concat_eq_append]
    exact List.Nodup.concat (mapSet_fresh_key hmem) h

theorem nodup_fst_foldl_mapSet {β κ α : Type} [DecidableEq κ]
    (key : β → κ) (val : β → α) :
    ∀ (l : List β) (m0 : List (κ × α)), (m0.map Prod.fst).Nodup →
      ((l.foldl (fun m x => mapSet (key x) (val x) m) m0).map Prod.fst).Nodup := by
  intro l
  induction l with
  | nil => intro m0 h; exact h
  | cons x xs ih =>
      intro m0 h
      rw [List.foldl_cons]
      exact ih _ (nodup_fst_mapSet _ _ h)

theorem entry_mem_mapSet {κ α : Type} [DecidableEq κ] {e : κ × α} {k : κ} {v : α}
    {m : List (κ × α)} (h : e ∈ mapSet k v m) : e ∈ m ∨ e = (k, v) := by
  unfold mapSet at h
  by_cases hmem : m.any (fun x => decide (x.1 = k))
  · rw [if_pos hmem, List.mem_map] at h
    obtain ⟨x, hx, hxe⟩ := h
    by_cases hk : x.1 = k
    · right
      rw [if_pos hk] at hxe
      rw [← hxe, hk]
    · left
      rw [if_neg hk] at hxe
      rw [← hxe]; exact hx
  · rw [if_neg hmem, List.mem_append, List.mem_singleton] at h
    exact h

theorem entry_key_foldl_mapSet {β κ α : Type} [DecidableEq κ]
    (key : β → κ) (val : β → α) (f : α → κ) (hkv : ∀ x, key x = f (val x)) :
    ∀ (l : List β) (m0 : List (κ × α)), (∀ e ∈ m0, e.1 = f e.2) →
      ∀ e ∈ l.foldl (fun m x => mapSet (key x) (val x) m) m0, e.1 = f e.2 := by
  intro l
  induction l with
  | nil => intro m0 h; exact h
  | cons x xs ih =>
      intro m0 h
      rw [List.foldl_cons]
      refine ih _ ?_
      intro e he
      rcases entry_mem_mapSet he with h1 | h1
      · exact h e h1
      · rw [h1]; exact hkv x

theorem lookupA_eq_some_mem {κ α : Type} [DecidableEq κ] {k : κ} {v : α} :
    ∀ {m : List (κ × α)}, lookupA k m = some v → (k, v) ∈ m := by
  intro m
  induction m with
  | nil => intro h; exact absurd h (by simp [lookupA])
  | cons x xs ih =>
      obtain ⟨a, b⟩ := x
      intro h
      rw [lookupA_cons] at h
      by_cases ha : a = k
      · rw [if_pos ha] at h
        injection h with h
        subst h
        subst ha
        exact List.mem_cons_self _ _
      · rw [if_neg ha] at h
        exact List.mem_cons_of_mem _ (ih h)

theorem mem_lookupA_of_nodup {κ α : Type} [DecidableEq κ] {k : κ} {v : α} :
    ∀ {m : List (κ × α)}, (m.map Prod.fst).Nodup → (k, v) ∈ m → lookupA k m = some v := by
  intro m
  induction m with
  | nil => intro _ h; cases h
  | cons x xs ih =>
      obtain ⟨a, b⟩ := x
      intro hnd hmem
      rw [List.map_cons, List.nodup_cons] at hnd
      rcases List.mem_cons.mp hmem with h1 | h1
      · cases h1
        rw [lookupA_cons, if_pos rfl]
      · have hak : a ≠ k := by
          intro hak
          subst hak
          exact hnd.1 (List.mem_map.mpr ⟨(a, v), h1, rfl⟩)
        rw [lookupA_cons, if_neg hak]
        exact ih hnd.2 h1

theorem reverse_find?_eq_filter_getLast? {α : Type} (p : α → Bool) :
    ∀ (l : List α), l.reverse.find? p = (l.filter p).getLast? := by
  intro l
  induction l with
  | nil => rfl
  | cons x xs ih =>
      rw [List.reverse_cons, List.find?_append, ih, List.filter_cons]
      by_cases h : p x
      · rw [if_pos h]
        have hx : List.find? p [x] = some x := by simp [List.find?_cons, h]
        rw [hx, List.getLast?_cons]
        cases hl : (xs.filter p).getLast? <;> simp [hl, Option.or]
      · rw [if_neg h]
        have hx : List.find? p [x] = none := by simp [List.find?_cons, h]
        rw [hx, Option.or_none]

theorem mem_of_getLast?_eq_some {α : Type} {l : List α} {y : α}
    (h : l.getLast? = some y) : y ∈ l := by
  rw [List.getLast?_eq_some_iff] at h
  obtain ⟨ys, rfl⟩ := h
  simp

theorem pairwise_getLast?_max {α : Type} {r : α → α → Prop} :
    ∀ {l : List α} {x y : α}, List.Pairwise r l → x ∈ l → l.getLast? = some y →
      x = y ∨ r x y := by
  intro l
  induction l with
  | nil => intro x y _ hx _; cases hx
  | cons a t ih =>
      intro x y hp hx hy
      cases t with
      | nil =>
          have hxa : x = a := by simpa using hx
          have hya : a = y := by simpa using hy
          left
          rw [hxa, hya]
      | cons b u =>
          have h3 : (b :: u).getLast?.isSome = true := by
            rw [List.getLast?_isSome]; simp
          obtain ⟨z, hz⟩ := Option.isSome_iff_exists.mp h3
          have hy2 : (b :: u).getLast? = some y := by
            rw [List.getLast?_cons, hz] at hy
            rw [hz]
            simpa using hy
          rw [List.pairwise_cons] at hp
          rcases List.mem_cons.mp hx with h1 | h1
          · subst h1
            right
            exact hp.1 y (mem_of_getLast?_eq_some hy2)
          · exact ih hp.2 h1 hy2

/- ### Series-builder pipeline lemmas. -/

theorem mapByDate_lookup (rows : List Row) (dk nk : String) (k : Int) :
    lookupA k (mapByDate rows dk nk)
      = ((keptRecs rows dk nk).filter (fun r => decide (dayKey r.ms = k))).getLast? := by
  have h := lookupA_foldl_mapSet (fun r : Rec => dayKey r.ms) (fun r => r) k
      (keptRecs rows dk nk) []
  unfold mapByDate
  rw [h]
  cases hl : ((keptRecs rows dk nk).filter (fun r => decide (dayKey r.ms = k))).getLast? with
  | some r => rfl
  | none => simp [lookupA]

theorem mapByDate_keys_nodup (rows : List Row) (dk nk : String) :
    ((mapByDate rows dk nk).map Prod.fst).Nodup := by
  exact nodup_fst_foldl_mapSet (fun r : Rec => dayKey r.ms) (fun r => r)
    (keptRecs rows dk nk) [] (by simp)

theorem mapByDate_entry_key (rows : List Row) (dk nk : String) :
    ∀ e ∈ mapByDate rows dk nk, e.1 = dayKey e.2.ms := by
  exact entry_key_foldl_mapSet (fun r : Rec => dayKey r.ms) (fun r => r)
    (fun r => dayKey r.ms) (fun _ => rfl) (keptRecs rows dk nk) [] (by simp)

theorem mapByDate_values_dayKey_nodup (rows : List Row) (dk nk : String) :
    (((mapByDate rows dk nk).map Prod.snd).map (fun r => dayKey r.ms)).Nodup := by
  have heq : ((mapByDate rows dk nk).map Prod.snd).map (fun r => dayKey r.ms)
      = (mapByDate rows dk nk).map Prod.fst := by
    rw [List.map_map]
    exact List.map_congr_left (fun e he => (mapByDate_entry_key rows dk nk e he).symm)
  rw [heq]
  exact mapByDate_keys_nodup rows dk nk

theorem cleanRecs_perm (rows : List Row) (dk nk : String) :
    (cleanRecs rows dk nk).Perm ((mapByDate rows dk nk).map Prod.snd) :=
  List.perm_insertionSort _ _

theorem cleanRecs_sorted_le (rows : List Row) (dk nk : String) :
    List.Pairwise (fun a b : Rec => a.ms ≤ b.ms) (cleanRecs rows dk nk) := by
  haveI : IsTotal Rec (fun a b : Rec => a.ms ≤ b.ms) := ⟨fun a b => le_total a.ms b.ms⟩
  haveI : IsTrans Rec (fun a b : Rec => a.ms ≤ b.ms) :=
    ⟨fun a b c hab hbc => le_trans hab hbc⟩
  exact List.sorted_insertionSort _ _

theorem cleanRecs_dayKey_nodup (rows : List Row) (dk nk : String) :
    ((cleanRecs rows dk nk).map (fun r => dayKey r.ms)).Nodup := by
  have hperm := (cleanRecs_perm rows dk nk).map (fun r => dayKey r.ms)
  rw [hperm.nodup_iff]
  exact mapByDate_values_dayKey_nodup rows dk nk

theorem cleanRecs_pairwise_dayKey_ne (rows : List Row) (dk nk : String) :
    List.Pairwise (fun a b : Rec => dayKey a.ms ≠ dayKey b.ms) (cleanRecs rows dk nk) := by
  have h := cleanRecs_dayKey_nodup rows dk nk
  rw [List.Nodup, List.pairwise_map] at h
  exact h

theorem cleanRecs_pairwise_lt (rows : List Row) (dk nk : String) :
    List.Pairwise (fun a b : Rec => a.ms < b.ms) (cleanRecs rows dk nk) := by
  have h := (cleanRecs_sorted_le rows dk nk).and (cleanRecs_pairwise_dayKey_ne rows dk nk)
  refine h.imp ?_
  intro a b hab
  rcases lt_or_eq_of_le hab.1 with h1 | h1
  · exact h1
  · exact absurd (by rw [dayKey, dayKey, h1]) hab.2

theorem cleanRecs_mem_values {rows : List Row} {dk nk : String} {r : Rec}
    (h : r ∈ cleanRecs rows dk nk) :
    lookupA (dayKey r.ms) (mapByDate rows dk nk) = some r := by
  have h2 : r ∈ (mapByDate rows dk nk).map Prod.snd := (cleanRecs_perm rows dk nk).mem_iff.mp h
  rw [List.mem_map] at h2
  obtain ⟨e, he, hev⟩ := h2
  have hk : e.1 = dayKey r.ms := by rw [mapByDate_entry_key rows dk nk e he, hev]
  have hmem : (dayKey r.ms, r) ∈ mapByDate rows dk nk := by
    have : e = (dayKey r.ms, r) := by
      obtain ⟨e1, e2⟩ := e
      simp only at hk hev
      rw [hk, hev]
    rw [← this]
    exact he
  exact mem_lookupA_of_nodup (mapByDate_keys_nodup rows dk nk) hmem

theorem values_mem_cleanRecs {rows : List Row} {dk nk : String} {k : Int} {r : Rec}
    (h : lookupA k (mapByDate rows dk nk) = some r) : r ∈ cleanRecs rows dk nk := by
  have h2 := lookupA_eq_some_mem h
  have h3 : r ∈ (mapByDate rows dk nk).map Prod.snd :=
    List.mem_map.mpr ⟨(k, r), h2, rfl⟩
  exact (cleanRecs_perm rows dk nk).mem_iff.mpr h3

/- ### Equity-walk structure lemmas. -/

theorem seriesWalk_map_pair :
    ∀ (l : List Rec) (e p : JSNum) (pn : Option JSNum),
      (seriesWalk l e p pn).map (fun pt => (pt.ms, pt.nav)) = l.map (fun r => (r.ms, r.nav)) := by
  intro l
  induction l with
  | nil => intro e p pn; rfl
  | cons c rest ih =>
      intro e p pn
      simp only [seriesWalk, List.map_cons]
      rw [ih]

theorem seriesWalk_getElem? :
    ∀ (l : List Rec) (e p : JSNum) (pn : Option JSNum) (i : Nat),
      (seriesWalk l e p pn)[i]?
        = match l[i]?, (scanEP l e p pn)[i]? with
          | some c, some ep =>
              some ⟨c.ms, c.nav, toFixed2 ep.1,
                    toFixed2 (jsMul (jsSub (jsDiv ep.1 ep.2) (.fin 1)) (.fin 100))⟩
          | _, _ => none := by
  intro l
  induction l with
  | nil => intro e p pn i; simp [seriesWalk, scanEP]
  | cons c rest ih =>
      intro e p pn i
      cases i with
      | zero => simp [seriesWalk, scanEP]
      | succ j =>
          simp only [seriesWalk, scanEP, List.getElem?_cons_succ]
          exact ih _ _ _ j

theorem scanEP_succ :
    ∀ (l : List Rec) (e p : JSNum) (pn : Option JSNum) (i : Nat) (c c' : Rec)
      (ep : JSNum × JSNum),
      l[i]? = some c → l[i + 1]? = some c' → (scanEP l e p pn)[i]? = some ep →
      (scanEP l e p pn)[i + 1]?
        = some (jsMul ep.1 (jsAdd (.fin 1) (retOf (some c.nav) c'.nav)),
                jsMax ep.2 (jsMul ep.1 (jsAdd (.fin 1) (retOf (some c.nav) c'.nav)))) := by
  intro l
  induction l with
  | nil => intro e p pn i c c' ep hc; simp at hc
  | cons x rest ih =>
      intro e p pn i c c' ep hc hc' hep
      cases i with
      | zero =>
          rw [List.getElem?_cons_zero] at hc
          injection hc with hc
          subst hc
          rw [List.getElem?_cons_succ] at hc'
          simp only [scanEP, List.getElem?_cons_zero] at hep
          injection hep with hep
          cases rest with
          | nil => simp at hc'
          | cons z zs =>
              rw [List.getElem?_cons_zero] at hc'
              injection hc' with hc'
              subst hc'
              simp only [scanEP, List.getElem?_cons_succ, List.getElem?_cons_zero]
              rw [← hep]
      | succ j =>
          rw [List.getElem?_cons_succ] at hc hc'
          simp only [scanEP, List.getElem?_cons_succ] at hep ⊢
          exact ih _ _ _ j c c' ep hc hc' hep

theorem toSeries_eq_walk {rows : List Row} {dk nk : String}
    (h : toSeries rows dk nk ≠ []) :
    toSeries rows dk nk = seriesWalk (cleanRecs rows dk nk) (.fin 100) (.fin 100) none := by
  unfold toSeries at h ⊢
  by_cases hg : rows = [] ∨ dk = "" ∨ nk = ""
  · rw [if_pos hg] at h
    exact absurd rfl h
  · rw [if_neg hg]

/-- C1: for every input row sequence and selected (truthy) date/value columns,
the series returned by the series builder is strictly sorted ascending by
date and no two points share a calendar day; every point on a given calendar
day carries exactly the date and value of the last kept row (in original row
order) mapping to that day, and every kept row's calendar day is represented
by a point of the series. -/
theorem C1_toSeries_sorted_dedup_lastwins (rows : List Row) (dk nk : String)
    (hdk : dk ≠ "") (hnk : nk ≠ "") :
    List.Pairwise (fun a b : SPoint => a.ms < b.ms) (toSeries rows dk nk)
    ∧ List.Pairwise (fun a b : SPoint => dayKey a.ms ≠ dayKey b.ms) (toSeries rows dk nk)
    ∧ (∀ p ∈ toSeries rows dk nk,
        ((keptRecs rows dk nk).filter
            (fun r => decide (dayKey r.ms = dayKey p.ms))).getLast?
          = some ⟨p.ms, p.nav⟩)
    ∧ (∀ r ∈ keptRecs rows dk nk,
        ∃ p ∈ toSeries rows dk nk, dayKey p.ms = dayKey r.ms) := by
  by_cases hrows : rows = []
  · subst hrows
    refine ⟨?_, ?_, ?_, ?_⟩ <;> simp [toSeries, keptRecs]
  · have hT : toSeries rows dk nk
        = seriesWalk (cleanRecs rows dk nk) (.fin 100) (.fin 100) none := by
      unfold toSeries
      rw [if_neg (by simp [hrows, hdk, hnk])]
    refine ⟨?_, ?_, ?_, ?_⟩
    · rw [hT]
      have h1 : List.Pairwise (fun x y : Int × JSNum => x.1 < y.1)
          ((cleanRecs rows dk nk).map (fun r => (r.ms, r.nav))) := by
        rw [List.pairwise_map]
        exact cleanRecs_pairwise_lt rows dk nk
      rw [← seriesWalk_map_pair (cleanRecs rows dk nk) (.fin 100) (.fin 100) none,
        List.pairwise_map] at h1
      exact h1
    · rw [hT]
      have h1 : List.Pairwise (fun x y : Int × JSNum => dayKey x.1 ≠ dayKey y.1)
          ((cleanRecs rows dk nk).map (fun r => (r.ms, r.nav))) := by
        rw [List.pairwise_map]
        exact cleanRecs_pairwise_dayKey_ne rows dk nk
      rw [← seriesWalk_map_pair (cleanRecs rows dk nk) (.fin 100) (.fin 100) none,
        List.pairwise_map] at h1
      exact h1
    · intro p hp
      rw [hT] at hp
      have hpair : (p.ms, p.nav) ∈ (cleanRecs rows dk nk).map (fun r => (r.ms, r.nav)) := by
        rw [← seriesWalk_map_pair (cleanRecs rows dk nk) (.fin 100) (.fin 100) none]
        exact List.mem_map.mpr ⟨p, hp, rfl⟩
      rw [List.mem_map] at hpair
      obtain ⟨r, hr, hrp⟩ := hpair
      obtain ⟨rms, rnav⟩ := r
      injection hrp with h1 h2
      subst h1
      subst h2
      have hv := cleanRecs_mem_values hr
      rw [mapByDate_lookup] at hv
      exact hv
    · intro r hr
      have hfil : r ∈ (keptRecs rows dk nk).filter
          (fun x => decide (dayKey x.ms = dayKey r.ms)) :=
        List.mem_filter.mpr ⟨hr, by simp⟩
      have hne := List.ne_nil_of_mem hfil
      obtain ⟨r', hr'⟩ := Option.isSome_iff_exists.mp (List.getLast?_isSome.mpr hne)
      have hlook : lookupA (dayKey r.ms) (mapByDate rows dk nk) = some r' := by
        rw [mapByDate_lookup]
        exact hr'
      have hr'clean : r' ∈ cleanRecs rows dk nk := values_mem_cleanRecs hlook
      have hr'day : dayKey r'.ms = dayKey r.ms := by
        have h2 := List.mem_filter.mp (mem_of_getLast?_eq_some hr')
        simpa using h2.2
      have hpairmem : (r'.ms, r'.nav)
          ∈ (seriesWalk (cleanRecs rows dk nk) (.fin 100) (.fin 100) none).map
              (fun pt => (pt.ms, pt.nav)) := by
        rw [seriesWalk_map_pair]
        exact List.mem_map.mpr ⟨r', hr'clean, rfl⟩
      rw [List.mem_map] at hpairmem
      obtain ⟨p, hpmem, hpp⟩ := hpairmem
      refine ⟨p, by rw [hT]; exact hpmem, ?_⟩
      have hms : p.ms = r'.ms := by
        injection hpp with h1 h2
      rw [hms, hr'day]

unseal Rat.add Rat.mul Rat.sub Rat.inv Rat.ofScientific in
/-- Witness for C1 at a concrete input: two rows share the calendar day of
timestamp 0 (the second, with value 110, must win) and a third row falls on
the next day; the point for day 0 is exactly the second row's record. -/
theorem C1_witness :
    ((keptRecs [[("D", RawValue.date (some 1000)), ("N", RawValue.num (.fin 100))],
                [("D", RawValue.date (some 2000)), ("N", RawValue.num (.fin 110))],
                [("D", RawValue.date (some 86400000)), ("N", RawValue.num (.fin 50))]]
        "D" "N").filter
        (fun r => decide (dayKey r.ms
          = dayKey (⟨2000, .fin 110, .fin 100, .fin 0⟩ : SPoint).ms))).getLast?
      = some ⟨2000, .fin 110⟩ := by
  have h := (C1_toSeries_sorted_dedup_lastwins
      [[("D", RawValue.date (some 1000)), ("N", RawValue.num (.fin 100))],
       [("D", RawValue.date (some 2000)), ("N", RawValue.num (.fin 110))],
       [("D", RawValue.date (some 86400000)), ("N", RawValue.num (.fin 50))]]
      "D" "N" (by decide) (by decide)).2.2.1
  exact h ⟨2000, .fin 110, .fin 100, .fin 0⟩ (by decide)

/- ### Small JSNum helper lemmas. -/

theorem jsIsNaN_eq_false_iff (x : JSNum) : jsIsNaN x = false ↔ x ≠ .nan := by
  cases x <;> simp [jsIsNaN]

theorem jsAdd_one_sub_one (x : JSNum) : jsAdd (.fin 1) (jsSub x (.fin 1)) = x := by
  cases x with
  | nan => rfl
  | inf => rfl
  | ninf => rfl
  | fin q =>
      show JSNum.fin (1 + (q + -1)) = JSNum.fin q
      congr 1
      ring

theorem ratFloor_eq (q : ℚ) : Rat.floor q = ⌊q⌋ :=
  (Rat.floor_def' q).trans Rat.floor_def.symm

/- ### Claim C8: numeric classifier (corrected: NaN-test, not finiteness). -/

/-- Counterexample for C8: `Infinity` is a number and is not NaN, so the
source's `isNumericLike` accepts it, while the claim as stated (which
requires a finite number) classifies it false. -/
theorem C8_counterexample :
    isNumericLike (.num .inf) = true ∧ claimNumericLike (.num .inf) = false :=
  ⟨rfl, rfl⟩

unseal Rat.add Rat.mul Rat.sub Rat.inv Rat.ofScientific in
/-- C8 amended: `isNumericLike(v)` is true exactly when `v` is a number other
than NaN, or a string that is non-empty after trimming whitespace and
stripping thousands separators and that coerces to a number other than NaN;
in particular it accepts "1,234.5" and rejects "abc", null and "". -/
theorem C8_amended_isNumericLike_characterisation :
    (∀ v : RawValue, isNumericLike v = true ↔
      ((∃ n, v = .num n ∧ n ≠ .nan)
        ∨ (∃ s, v = .str s ∧ trimStripCommas s ≠ []
            ∧ jsStrToNumL (trimStripCommas s) ≠ .nan)))
    ∧ isNumericLike (.str "1,234.5") = true
    ∧ isNumericLike (.str "abc") = false
    ∧ isNumericLike .null = false
    ∧ isNumericLike (.str "") = false := by
  refine ⟨?_, by decide, by decide, rfl, by decide⟩
  intro v
  cases v with
  | null => simp [isNumericLike]
  | num n => cases n <;> simp [isNumericLike, jsIsNaN]
  | str s =>
      simp only [isNumericLike, Bool.and_eq_true, decide_eq_true_eq,
        Bool.not_eq_true', jsIsNaN_eq_false_iff]
      constructor
      · intro h
        exact Or.inr ⟨s, rfl, h.1, h.2⟩
      · intro h
        rcases h with ⟨n, hn, _⟩ | ⟨s', hs, h1, h2⟩
        · cases hn
        · cases hs
          exact ⟨h1, h2⟩
  | date o => simp [isNumericLike]

/- ### Claim C9: bad rows are skipped (corrected: NaN-test, not finiteness). -/

unseal Rat.add Rat.mul Rat.sub Rat.inv Rat.ofScientific in
/-- Counterexample for C9: a row whose value cell is the number `Infinity`
does not yield a finite number, yet it is not skipped: the built series
contains a point carrying the value Infinity. -/
theorem C9_counterexample :
    jsIsFinite (coerceNav (RawValue.num .inf)) = false
    ∧ toSeries [[("D", RawValue.date (some 0)), ("N", RawValue.num .inf)]] "D" "N"
        = [⟨0, .inf, .fin 100, .fin 0⟩] :=
  ⟨rfl, by decide⟩

theorem cleanRow_none_of_bad {r : Row} {dk nk : String}
    (hbad : coerceDate (rowGet r dk) = none ∨ isNumericLike (rowGet r nk) = false
            ∨ jsIsNaN (coerceNav (rowGet r nk)) = true) :
    cleanRow dk nk r = none := by
  unfold cleanRow
  rcases hbad with h | h | h
  · rw [h]
  · cases hcd : coerceDate (rowGet r dk) with
    | none => rfl
    | some ms => simp [h]
  · cases hcd : coerceDate (rowGet r dk) with
    | none => rfl
    | some ms =>
        by_cases hn : isNumericLike (rowGet r nk)
        · simp [hn, h]
        · simp [hn]

/-- C9 amended: the series builder silently skips any row whose date cell
fails coercion, or whose value cell is not numeric-like, or whose value cell
coerces to NaN after stripping thousands separators: such a row contributes
nothing, so the row sequence with the row removed builds the same kept
records and the same series. -/
theorem C9_amended_bad_rows_skipped (pre post : List Row) (r : Row) (dk nk : String)
    (hbad : coerceDate (rowGet r dk) = none ∨ isNumericLike (rowGet r nk) = false
            ∨ jsIsNaN (coerceNav (rowGet r nk)) = true) :
    keptRecs (pre ++ r :: post) dk nk = keptRecs (pre ++ post) dk nk
    ∧ toSeries (pre ++ r :: post) dk nk = toSeries (pre ++ post) dk nk := by
  have hclean := cleanRow_none_of_bad hbad
  have hkept : keptRecs (pre ++ r :: post) dk nk = keptRecs (pre ++ post) dk nk := by
    unfold keptRecs
    rw [List.filterMap_append, List.filterMap_append, List.filterMap_cons, hclean]
  refine ⟨hkept, ?_⟩
  unfold toSeries
  by_cases hg : dk = "" ∨ nk = ""
  · rw [if_pos (Or.inr hg), if_pos (Or.inr hg)]
  · have hclean2 : cleanRecs (pre ++ r :: post) dk nk = cleanRecs (pre ++ post) dk nk := by
      unfold cleanRecs mapByDate
      rw [hkept]
    by_cases h2 : pre ++ post = []
    · rw [if_pos (Or.inl h2)]
      have h1 : pre ++ r :: post ≠ [] := by
        intro hc
        exact List.cons_ne_nil r post (List.append_eq_nil.mp hc).2
      rw [if_neg (by push_neg; push_neg at hg; exact ⟨h1, hg⟩)]
      rw [hclean2]
      have : cleanRecs (pre ++ post) dk nk = [] := by
        unfold cleanRecs mapByDate keptRecs
        rw [h2]
        rfl
      rw [this]
      rfl
    · have h1 : pre ++ r :: post ≠ [] := by
        intro hc
        exact List.cons_ne_nil r post (List.append_eq_nil.mp hc).2
      rw [if_neg (by push_neg; push_neg at hg; exact ⟨h1, hg⟩),
        if_neg (by push_neg; push_neg at hg; exact ⟨h2, hg⟩), hclean2]

unseal Rat.add Rat.mul Rat.sub Rat.inv Rat.ofScientific in
/-- Witness for C9 at a concrete input: a row with value "abc" is skipped and
the series of the remaining row is unchanged. -/
theorem C9_witness :
    keptRecs [[("D", RawValue.date (some 0)), ("N", RawValue.num (.fin 100))],
              [("D", RawValue.date (some 86400000)), ("N", RawValue.str "abc")]] "D" "N"
      = keptRecs [[("D", RawValue.date (some 0)), ("N", RawValue.num (.fin 100))]] "D" "N"
    ∧ toSeries [[("D", RawValue.date (some 0)), ("N", RawValue.num (.fin 100))],
                [("D", RawValue.date (some 86400000)), ("N", RawValue.str "abc")]] "D" "N"
      = toSeries [[("D", RawValue.date (some 0)), ("N", RawValue.num (.fin 100))]] "D" "N" := by
  exact C9_amended_bad_rows_skipped
    [[("D", RawValue.date (some 0)), ("N", RawValue.num (.fin 100))]] []
    [("D", RawValue.date (some 86400000)), ("N", RawValue.str "abc")] "D" "N"
    (Or.inr (Or.inl (by decide)))

/- ### Claim C10: equity nonnegativity (corrected: needs positive values). -/

unseal Rat.add Rat.mul Rat.sub Rat.inv Rat.ofScientific in
/-- Counterexample for C10: with a negative valuation the equity index goes
negative - here the second stored equity index is −50. -/
theorem C10_counterexample :
    ¬ ∀ p ∈ toSeries [[("D", RawValue.date (some 0)), ("N", RawValue.num (.fin 100))],
                      [("D", RawValue.date (some 86400000)), ("N", RawValue.num (.fin (-50)))]]
          "D" "N", ∃ q : ℚ, p.equity = .fin q ∧ 0 ≤ q := by
  intro h
  have h2 := h ⟨86400000, .fin (-50), .fin (-50), .fin (-150)⟩ (by decide)
  obtain ⟨q, hq, hq0⟩ := h2
  injection hq with hq
  rw [← hq] at hq0
  norm_num at hq0

theorem seriesWalk_equity_nonneg :
    ∀ (l : List Rec) (ex : ℚ) (pk : JSNum) (pn : Option JSNum),
      0 < ex →
      (pn = none ∨ ∃ x : ℚ, pn = some (.fin x) ∧ 0 < x) →
      (∀ r ∈ l, ∃ x : ℚ, r.nav = .fin x ∧ 0 < x) →
      ∀ pt ∈ seriesWalk l (.fin ex) pk pn, ∃ q : ℚ, pt.equity = .fin q ∧ 0 ≤ q := by
  intro l
  induction l with
  | nil => intro ex pk pn _ _ _ pt hpt; cases hpt
  | cons c rest ih =>
      intro ex pk pn hex hpn hl pt hpt
      obtain ⟨vx, hvx, hvpos⟩ := hl c (List.mem_cons_self c rest)
      have hret : ∃ e1x : ℚ,
          jsMul (.fin ex) (jsAdd (.fin 1) (retOf pn c.nav)) = .fin e1x ∧ 0 < e1x := by
        rcases hpn with h | ⟨px, hpx, hppos⟩
        · subst h
          refine ⟨ex * (1 + 0), rfl, by nlinarith⟩
        · subst hpx
          have hpne : JSNum.fin px ≠ .fin 0 := by
            simp only [ne_eq, JSNum.fin.injEq]
            exact ne_of_gt hppos
          rw [hvx]
          simp only [retOf]
          rw [if_pos hpne]
          simp only [jsDiv]
          rw [if_neg (ne_of_gt hppos)]
          refine ⟨ex * (1 + (vx / px + -1)), rfl, ?_⟩
          have harith : (1 : ℚ) + (vx / px + -1) = vx / px := by ring
          rw [harith]
          exact mul_pos hex (div_pos hvpos hppos)
      obtain ⟨e1x, he1, he1pos⟩ := hret
      simp only [seriesWalk] at hpt
      rw [List.mem_cons] at hpt
      rcases hpt with h | h
      · subst h
        show ∃ q, toFixed2 (jsMul (.fin ex) (jsAdd (.fin 1) (retOf pn c.nav))) = .fin q ∧ 0 ≤ q
        rw [he1]
        refine ⟨_, rfl, ?_⟩
        rw [ratFloor_eq]
        apply div_nonneg _ (by norm_num)
        have h0 : (0 : Int) ≤ ⌊e1x * 100 + 1/2⌋ := by
          rw [Int.le_floor]
          push_cast
          nlinarith
        exact_mod_cast h0
      · rw [he1] at h
        refine ih e1x (jsMax pk (.fin e1x)) (some c.nav) he1pos ?_ ?_ pt h
        · exact Or.inr ⟨vx, by rw [hvx], hvpos⟩
        · intro r hr
          exact hl r (List.mem_cons_of_mem c hr)

/-- C10 amended: every stored equity index of a built series is a real
number, and it is nonnegative whenever every value of the series is finite
and positive (with a value of changing sign the equity index can go
negative, as the counterexample shows). -/
theorem C10_amended_equity_nonneg (rows : List Row) (dk nk : String)
    (hpos : ∀ p ∈ toSeries rows dk nk, ∃ x : ℚ, p.nav = .fin x ∧ 0 < x) :
    ∀ p ∈ toSeries rows dk nk, ∃ q : ℚ, p.equity = .fin q ∧ 0 ≤ q := by
  intro p hp
  have hne : toSeries rows dk nk ≠ [] := List.ne_nil_of_mem hp
  have hT := toSeries_eq_walk hne
  have hl : ∀ r ∈ cleanRecs rows dk nk, ∃ x : ℚ, r.nav = .fin x ∧ 0 < x := by
    intro r hr
    have hpair : (r.ms, r.nav)
        ∈ (seriesWalk (cleanRecs rows dk nk) (.fin 100) (.fin 100) none).map
            (fun pt => (pt.ms, pt.nav)) := by
      rw [seriesWalk_map_pair]
      exact List.mem_map.mpr ⟨r, hr, rfl⟩
    rw [List.mem_map] at hpair
    obtain ⟨pt, hpt, hpe⟩ := hpair
    have hnav : pt.nav = r.nav := congrArg Prod.snd hpe
    obtain ⟨x, hx, hxp⟩ := hpos pt (by rw [hT]; exact hpt)
    exact ⟨x, by rw [← hnav]; exact hx, hxp⟩
  rw [hT] at hp
  exact seriesWalk_equity_nonneg (cleanRecs rows dk nk) 100 (.fin 100) none (by norm_num)
    (Or.inl rfl) hl p hp

unseal Rat.add Rat.mul Rat.sub Rat.inv Rat.ofScientific in
/-- Witness for C10 at a concrete input with positive values: the stored
equity index of the second point is nonnegative. -/
theorem C10_witness :
    ∃ q : ℚ, (⟨86400000, JSNum.fin 50, JSNum.fin 50, JSNum.fin (-50)⟩ : SPoint).equity
      = .fin q ∧ 0 ≤ q := by
  refine C10_amended_equity_nonneg
    [[("D", RawValue.date (some 0)), ("N", RawValue.num (.fin 100))],
     [("D", RawValue.date (some 86400000)), ("N", RawValue.num (.fin 50))]]
    "D" "N" ?_ ⟨86400000, .fin 50, .fin 50, .fin (-50)⟩ (by decide)
  intro p hp
  have hps : p = ⟨0, .fin 100, .fin 100, .fin 0⟩
      ∨ p = ⟨86400000, .fin 50, .fin 50, .fin (-50)⟩ := by
    have hls : toSeries [[("D", RawValue.date (some 0)), ("N", RawValue.num (.fin 100))],
                    [("D", RawValue.date (some 86400000)), ("N", RawValue.num (.fin 50))]]
        "D" "N" = [⟨0, .fin 100, .fin 100, .fin 0⟩,
                   ⟨86400000, .fin 50, .fin 50, .fin (-50)⟩] := by decide
    rw [hls] at hp
    simpa using hp
  rcases hps with h | h <;> subst h
  · exact ⟨100, rfl, by norm_num⟩
  · exact ⟨50, rfl, by norm_num⟩

/- ### Claim C4: equity index normalisation and recurrence. -/

theorem scanEP_length :
    ∀ (l : List Rec) (e p : JSNum) (pn : Option JSNum),
      (scanEP l e p pn).length = l.length := by
  intro l
  induction l with
  | nil => intro e p pn; rfl
  | cons c rest ih =>
      intro e p pn
      simp only [scanEP, List.length_cons, ih]

unseal Rat.add Rat.mul Rat.sub Rat.inv Rat.ofScientific in
/-- C4: for every non-empty built series, the stored equity of the first
point is 100 (the internal full-precision equity starts at 100); the
internal equity satisfies `E(i+1) = E(i) × value(i+1)/value(i)` whenever the
previous value is nonzero; and every stored equity is the internal equity
rounded to 2 decimal places. -/
theorem C4_equity_recurrence (rows : List Row) (dk nk : String)
    (h : toSeries rows dk nk ≠ []) :
    (toSeries rows dk nk).head?.map (·.equity) = some (.fin 100)
    ∧ (equityInternal rows dk nk).head? = some (.fin 100)
    ∧ (∀ (i : Nat) (c c' : Rec) (e : JSNum),
        (cleanRecs rows dk nk)[i]? = some c →
        (cleanRecs rows dk nk)[i + 1]? = some c' →
        (equityInternal rows dk nk)[i]? = some e →
        c.nav ≠ .fin 0 →
        (equityInternal rows dk nk)[i + 1]? = some (jsMul e (jsDiv c'.nav c.nav)))
    ∧ (∀ i : Nat, (toSeries rows dk nk)[i]?.map (·.equity)
        = ((equityInternal rows dk nk)[i]?).map toFixed2) := by
  have hT := toSeries_eq_walk h
  have hcne : cleanRecs rows dk nk ≠ [] := by
    intro hc
    rw [hT, hc] at h
    exact h rfl
  refine ⟨?_, ?_, ?_, ?_⟩
  · rw [hT]
    cases hc : cleanRecs rows dk nk with
    | nil => exact absurd hc hcne
    | cons c rest =>
        simp only [seriesWalk, List.head?_cons]
        have hr : retOf none c.nav = .fin 0 := rfl
        rw [hr]
        have h100 : toFixed2 (jsMul (.fin 100) (jsAdd (.fin 1) (.fin 0))) = .fin 100 := by
          decide
        rw [h100]
        rfl
  · unfold equityInternal
    cases hc : cleanRecs rows dk nk with
    | nil => exact absurd hc hcne
    | cons c rest =>
        simp only [scanEP, List.map_cons, List.head?_cons]
        have hr : retOf none c.nav = .fin 0 := rfl
        rw [hr]
        have h100 : jsMul (.fin 100) (jsAdd (.fin 1) (.fin 0)) = .fin 100 := by decide
        rw [h100]
  · intro i c c' e hc hc' he hnz
    unfold equityInternal at he ⊢
    rw [List.getElem?_map] at he ⊢
    rcases hep : (scanEP (cleanRecs rows dk nk) (.fin 100) (.fin 100) none)[i]? with _ | ⟨ep⟩
    · rw [hep] at he
      exact absurd he (by simp)
    · rw [hep] at he
      have hfst : ep.1 = e := by simpa using he
      have hstep := scanEP_succ (cleanRecs rows dk nk) (.fin 100) (.fin 100) none i c c' ep
        hc hc' hep
      rw [hstep]
      have hret : retOf (some c.nav) c'.nav = jsSub (jsDiv c'.nav c.nav) (.fin 1) := by
        simp only [retOf]
        rw [if_pos hnz]
      show some (jsMul ep.1 (jsAdd (.fin 1) (retOf (some c.nav) c'.nav))) = _
      rw [hret, jsAdd_one_sub_one, hfst]
  · intro i
    rw [hT]
    unfold equityInternal
    rw [List.getElem?_map, seriesWalk_getElem?]
    rcases hc : (cleanRecs rows dk nk)[i]? with _ | ⟨c⟩
    · have hlen : (cleanRecs rows dk nk).length ≤ i := List.getElem?_eq_none_iff.mp hc
      have hep : (scanEP (cleanRecs rows dk nk) (.fin 100) (.fin 100) none)[i]? = none :=
        List.getElem?_eq_none (by rw [scanEP_length]; exact hlen)
      rw [hep]
      rfl
    · have hlt : i < (scanEP (cleanRecs rows dk nk) (.fin 100) (.fin 100) none).length := by
        rw [scanEP_length]
        rcases List.getElem?_eq_some.mp hc with ⟨hlt, _⟩
        exact hlt
      have hep : (scanEP (cleanRecs rows dk nk) (.fin 100) (.fin 100) none)[i]?
          = some ((scanEP (cleanRecs rows dk nk) (.fin 100) (.fin 100) none).get ⟨i, hlt⟩) :=
        List.getElem?_eq_some.mpr ⟨hlt, rfl⟩
      rw [hep]
      rfl

unseal Rat.add Rat.mul Rat.sub Rat.inv Rat.ofScientific in
theorem C4_witness :
    (equityInternal [[("D", RawValue.date (some 0)), ("N", RawValue.num (.fin 100))],
                     [("D", RawValue.date (some 86400000)), ("N", RawValue.num (.fin 110))]]
        "D" "N")[0 + 1]?
      = some (jsMul (.fin 100) (jsDiv (.fin 110) (.fin 100))) := by
  have h := (C4_equity_recurrence
      [[("D", RawValue.date (some 0)), ("N", RawValue.num (.fin 100))],
       [("D", RawValue.date (some 86400000)), ("N", RawValue.num (.fin 110))]]
      "D" "N" (by decide)).2.2.1
  exact h 0 ⟨0, .fin 100⟩ ⟨86400000, .fin 110⟩ (.fin 100)
    (by decide) (by decide) (by decide) (by decide)

/- ### Claim C5: drawdown nonpositivity (corrected: needs finite values). -/

unseal Rat.add Rat.mul Rat.sub Rat.inv Rat.ofScientific in
/-- Counterexample for C5: with an Infinity valuation the drawdown becomes
NaN (equity ∞ against peak ∞), which is not ≤ 0. -/
theorem C5_counterexample :
    ¬ ∀ p ∈ toSeries [[("D", RawValue.date (some 0)), ("N", RawValue.num (.fin 1))],
                      [("D", RawValue.date (some 86400000)), ("N", RawValue.num .inf)]]
          "D" "N", ∃ q : ℚ, p.drawdown = .fin q ∧ q ≤ 0 := by
  intro h
  have h2 := h ⟨86400000, .inf, .inf, .nan⟩ (by decide)
  obtain ⟨q, hq, _⟩ := h2
  exact JSNum.noConfusion hq

unseal Rat.add Rat.mul Rat.sub Rat.inv Rat.ofScientific in
theorem seriesWalk_dd_props :
    ∀ (l : List Rec) (ex px : ℚ) (pn : Option JSNum),
      0 < px →
      (pn = none ∨ ∃ x : ℚ, pn = some (.fin x)) →
      (∀ r ∈ l, ∃ x : ℚ, r.nav = .fin x) →
      ∀ (i : Nat) (pt : SPoint),
        (seriesWalk l (.fin ex) (.fin px) pn)[i]? = some pt →
        (∃ q : ℚ, pt.drawdown = .fin q ∧ q ≤ 0)
        ∧ (∀ ep : JSNum × JSNum,
            (scanEP l (.fin ex) (.fin px) pn)[i]? = some ep →
            jsLeB ep.2 ep.1 = true → pt.drawdown = .fin 0) := by
  intro l
  induction l with
  | nil =>
      intro ex px pn _ _ _ i pt hpt
      rw [show seriesWalk [] (.fin ex) (.fin px) pn = [] from rfl] at hpt
      simp at hpt
  | cons c rest ih =>
      intro ex px pn hpx hpn hl i pt hpt
      obtain ⟨vx, hvx⟩ := hl c (List.mem_cons_self c rest)
      have hret : ∃ rx : ℚ, retOf pn c.nav = .fin rx := by
        rcases hpn with h | ⟨x, hx⟩
        · subst h
          exact ⟨0, rfl⟩
        · subst hx
          simp only [retOf]
          by_cases hz : JSNum.fin x ≠ JSNum.fin 0
          · rw [if_pos hz]
            have hx0 : x ≠ 0 := by simpa using hz
            rw [hvx]
            simp only [jsDiv]
            rw [if_neg hx0]
            exact ⟨vx / x + -1, rfl⟩
          · rw [if_neg hz]
            exact ⟨0, rfl⟩
      obtain ⟨rx, hrx⟩ := hret
      have he1 : jsMul (.fin ex) (jsAdd (.fin 1) (retOf pn c.nav)) = .fin (ex * (1 + rx)) := by
        rw [hrx]
        rfl
      have hmaxpos : 0 < max px (ex * (1 + rx)) := lt_max_iff.mpr (Or.inl hpx)
      have hddq : jsSub (jsDiv (.fin (ex * (1 + rx))) (.fin (max px (ex * (1 + rx)))))
          (.fin 1) = .fin (ex * (1 + rx) / max px (ex * (1 + rx)) + -1) := by
        simp only [jsDiv]
        rw [if_neg (ne_of_gt hmaxpos)]
        rfl
      cases i with
      | zero =>
          simp only [seriesWalk, scanEP, List.getElem?_cons_zero] at hpt ⊢
          rw [he1] at hpt ⊢
          have hpk1 : jsMax (.fin px) (.fin (ex * (1 + rx)))
              = .fin (max px (ex * (1 + rx))) := rfl
          rw [hpk1] at hpt ⊢
          injection hpt with hpt
          subst hpt
          constructor
          · show ∃ q : ℚ, toFixed2 (jsMul (jsSub
                (jsDiv (.fin (ex * (1 + rx))) (.fin (max px (ex * (1 + rx))))) (.fin 1))
                (.fin 100)) = .fin q ∧ q ≤ 0
            rw [hddq]
            have hdle : ex * (1 + rx) / max px (ex * (1 + rx)) + -1 ≤ 0 := by
              have h1 : ex * (1 + rx) / max px (ex * (1 + rx)) ≤ 1 :=
                (div_le_one hmaxpos).mpr (le_max_right _ _)
              linarith
            refine ⟨_, rfl, ?_⟩
            rw [ratFloor_eq]
            apply div_nonpos_of_nonpos_of_nonneg _ (by norm_num)
            have h1 : ((⌊(ex * (1 + rx) / max px (ex * (1 + rx)) + -1) * 100 * 100 + 1/2⌋ : Int)
                : ℚ) ≤ (ex * (1 + rx) / max px (ex * (1 + rx)) + -1) * 100 * 100 + 1/2 :=
              Int.floor_le _
            have h2 : (ex * (1 + rx) / max px (ex * (1 + rx)) + -1) * 100 * 100 + 1/2
                < 1 := by nlinarith
            have h3 : ((⌊(ex * (1 + rx) / max px (ex * (1 + rx)) + -1) * 100 * 100 + 1/2⌋
                : Int) : ℚ) < 1 := lt_of_le_of_lt h1 h2
            have h4 : (⌊(ex * (1 + rx) / max px (ex * (1 + rx)) + -1) * 100 * 100 + 1/2⌋
                : Int) < 1 := by exact_mod_cast h3
            exact_mod_cast Int.lt_add_one_iff.mp h4
          · intro ep hep hle
            injection hep with hep
            subst hep
            simp only [jsLeB, decide_eq_true_eq] at hle
            have hgele : ex * (1 + rx) = max px (ex * (1 + rx)) :=
              le_antisymm (le_max_right _ _) hle
            show toFixed2 (jsMul (jsSub
                (jsDiv (.fin (ex * (1 + rx))) (.fin (max px (ex * (1 + rx))))) (.fin 1))
                (.fin 100)) = .fin 0
            rw [hddq]
            have hz : ex * (1 + rx) / max px (ex * (1 + rx)) + -1 = 0 := by
              rw [← hgele]
              have hpos2 : (0 : ℚ) < ex * (1 + rx) := by
                rw [hgele]
                exact hmaxpos
              rw [div_self (ne_of_gt hpos2)]
              ring
            rw [hz]
            decide
      | succ j =>
          simp only [seriesWalk, scanEP, List.getElem?_cons_succ] at hpt ⊢
          rw [he1] at hpt ⊢
          have hpk1 : jsMax (.fin px) (.fin (ex * (1 + rx)))
              = .fin (max px (ex * (1 + rx))) := rfl
          rw [hpk1] at hpt ⊢
          have := ih (ex * (1 + rx)) (max px (ex * (1 + rx))) (some c.nav) hmaxpos
            (Or.inr ⟨vx, by rw [hvx]⟩) (fun r hr => hl r (List.mem_cons_of_mem c hr)) j pt hpt
          exact this

/-- C5 amended: for every built series all of whose values are finite, every
stored drawdown is a real ≤ 0, and it is exactly 0 whenever the internal
equity at that point is at or above the running peak (in particular on the
first point and at every new all-time high). -/
theorem C5_amended_drawdown (rows : List Row) (dk nk : String)
    (hfin : ∀ p ∈ toSeries rows dk nk, ∃ x : ℚ, p.nav = .fin x) :
    ∀ (i : Nat) (pt : SPoint), (toSeries rows dk nk)[i]? = some pt →
      (∃ q : ℚ, pt.drawdown = .fin q ∧ q ≤ 0)
      ∧ (∀ e pk : JSNum,
          (equityInternal rows dk nk)[i]? = some e →
          (peakInternal rows dk nk)[i]? = some pk →
          jsLeB pk e = true → pt.drawdown = .fin 0) := by
  intro i pt hpt
  have hne : toSeries rows dk nk ≠ [] := by
    intro hc
    rw [hc] at hpt
    simp at hpt
  have hT := toSeries_eq_walk hne
  have hl : ∀ r ∈ cleanRecs rows dk nk, ∃ x : ℚ, r.nav = .fin x := by
    intro r hr
    have hpair : (r.ms, r.nav)
        ∈ (seriesWalk (cleanRecs rows dk nk) (.fin 100) (.fin 100) none).map
            (fun q => (q.ms, q.nav)) := by
      rw [seriesWalk_map_pair]
      exact List.mem_map.mpr ⟨r, hr, rfl⟩
    rw [List.mem_map] at hpair
    obtain ⟨q, hq, hqe⟩ := hpair
    have hnav : q.nav = r.nav := congrArg Prod.snd hqe
    obtain ⟨x, hx⟩ := hfin q (by rw [hT]; exact hq)
    exact ⟨x, by rw [← hnav]; exact hx⟩
  rw [hT] at hpt
  have hmain := seriesWalk_dd_props (cleanRecs rows dk nk) 100 100 none (by norm_num)
    (Or.inl rfl) hl i pt hpt
  refine ⟨hmain.1, ?_⟩
  intro e pk he hpk hle
  unfold equityInternal at he
  unfold peakInternal at hpk
  rw [List.getElem?_map] at he hpk
  rcases hep : (scanEP (cleanRecs rows dk nk) (.fin 100) (.fin 100) none)[i]? with _ | ⟨ep⟩
  · rw [hep] at he
    exact absurd he (by simp)
  · rw [hep] at he hpk
    have h1 : ep.1 = e := by simpa using he
    have h2 : ep.2 = pk := by simpa using hpk
    refine hmain.2 ep hep ?_
    rw [h1, h2]
    exact hle

unseal Rat.add Rat.mul Rat.sub Rat.inv Rat.ofScientific in
/-- Witness for C5 at a concrete input: on the first point the equity equals
the running peak, so the drawdown is exactly 0 (and in particular ≤ 0). -/
theorem C5_witness :
    (⟨0, JSNum.fin 100, JSNum.fin 100, JSNum.fin 0⟩ : SPoint).drawdown = .fin 0 := by
  have hfin : ∀ p ∈ toSeries [[("D", RawValue.date (some 0)), ("N", RawValue.num (.fin 100))],
                    [("D", RawValue.date (some 86400000)), ("N", RawValue.num (.fin 50))]]
      "D" "N", ∃ x : ℚ, p.nav = .fin x := by
    intro p hp
    have hls : toSeries [[("D", RawValue.date (some 0)), ("N", RawValue.num (.fin 100))],
                    [("D", RawValue.date (some 86400000)), ("N", RawValue.num (.fin 50))]]
        "D" "N" = [⟨0, .fin 100, .fin 100, .fin 0⟩,
                   ⟨86400000, .fin 50, .fin 50, .fin (-50)⟩] := by decide
    rw [hls] at hp
    rcases (by simpa using hp :
        p = (⟨0, .fin 100, .fin 100, .fin 0⟩ : SPoint)
        ∨ p = (⟨86400000, .fin 50, .fin 50, .fin (-50)⟩ : SPoint)) with h | h <;> subst h
    · exact ⟨100, rfl⟩
    · exact ⟨50, rfl⟩
  exact (C5_amended_drawdown
      [[("D", RawValue.date (some 0)), ("N", RawValue.num (.fin 100))],
       [("D", RawValue.date (some 86400000)), ("N", RawValue.num (.fin 50))]]
      "D" "N" hfin 0 ⟨0, .fin 100, .fin 100, .fin 0⟩ (by decide)).2
    (.fin 100) (.fin 100) (by decide) (by decide) (by decide)

/- ### Claim C2: trailing lookback windows. -/

theorem findClosest_eq_latestAtOrBefore (s : List SPoint) (endMs days : Int) :
    findClosest s endMs days = latestAtOrBefore s (endMs - days * 86400000) := by
  unfold findClosest latestAtOrBefore
  exact reverse_find?_eq_filter_getLast? _ s

theorem toSeries_pairwise_lt (rows : List Row) (dk nk : String) :
    List.Pairwise (fun a b : SPoint => a.ms < b.ms) (toSeries rows dk nk) := by
  by_cases h : toSeries rows dk nk = []
  · rw [h]
    exact List.Pairwise.nil
  · rw [toSeries_eq_walk h]
    have h1 : List.Pairwise (fun x y : Int × JSNum => x.1 < y.1)
        ((cleanRecs rows dk nk).map (fun r => (r.ms, r.nav))) := by
      rw [List.pairwise_map]
      exact cleanRecs_pairwise_lt rows dk nk
    rw [← seriesWalk_map_pair (cleanRecs rows dk nk) (.fin 100) (.fin 100) none,
      List.pairwise_map] at h1
    exact h1

/-- C2: for every non-empty built series and every lookback label with its
window, the reported entry for that label is `latestValue/pastValue − 1`
with `past` the last (and, the series being sorted, the date-latest) point
at or before `latestDate − window` days, and is unavailable (null) when no
point is at or before that target. -/
theorem C2_trailing_windows (rows : List Row) (dk nk : String)
    (h : toSeries rows dk nk ≠ []) (latest : SPoint)
    (hlatest : (toSeries rows dk nk).getLast? = some latest) :
    ∀ lb ∈ lookbackPeriods,
      lookupA lb.1 (calculateTrailingReturns (toSeries rows dk nk)).periods
        = some ((latestAtOrBefore (toSeries rows dk nk) (latest.ms - lb.2 * 86400000)).map
            (fun past => jsSub (jsDiv latest.nav past.nav) (.fin 1)))
      ∧ (∀ past, latestAtOrBefore (toSeries rows dk nk) (latest.ms - lb.2 * 86400000)
            = some past →
          past ∈ toSeries rows dk nk
          ∧ past.ms ≤ latest.ms - lb.2 * 86400000
          ∧ ∀ q ∈ toSeries rows dk nk,
              q.ms ≤ latest.ms - lb.2 * 86400000 → q.ms ≤ past.ms) := by
  intro lb hlb
  have hsorted := toSeries_pairwise_lt rows dk nk
  constructor
  · cases hs : toSeries rows dk nk with
    | nil => exact absurd hs h
    | cons first rest =>
        rw [hs] at hlatest
        simp only [calculateTrailingReturns, hlatest, Option.getD_some]
        rw [← hs]
        have hfc : ∀ days : Int, findClosest (toSeries rows dk nk) latest.ms days
            = latestAtOrBefore (toSeries rows dk nk) (latest.ms - days * 86400000) :=
          fun days => findClosest_eq_latestAtOrBefore _ _ _
        simp only [lookbackPeriods, List.mem_cons, List.not_mem_nil, or_false] at hlb
        rcases hlb with hl | hl | hl | hl | hl | hl | hl | hl <;> subst hl <;>
          simp only [lookbackPeriods, List.map_cons, List.map_nil, lookupA_cons,
            if_pos, if_neg, hs] <;>
          rw [← hs] <;>
          simp [lookupA_cons, hfc]
  · intro past hpast
    unfold latestAtOrBefore at hpast
    have hmem := mem_of_getLast?_eq_some hpast
    rw [List.mem_filter] at hmem
    refine ⟨hmem.1, by simpa using hmem.2, ?_⟩
    intro q hq hqle
    have hqfil : q ∈ (toSeries rows dk nk).filter
        (fun p => decide (p.ms ≤ latest.ms - lb.2 * 86400000)) :=
      List.mem_filter.mpr ⟨hq, by simpa using hqle⟩
    have hfsorted : List.Pairwise (fun a b : SPoint => a.ms < b.ms)
        ((toSeries rows dk nk).filter
          (fun p => decide (p.ms ≤ latest.ms - lb.2 * 86400000))) :=
      List.Pairwise.sublist (List.filter_sublist _) hsorted
    rcases pairwise_getLast?_max hfsorted hqfil hpast with h1 | h1
    · rw [h1]
    · exact le_of_lt h1

unseal Rat.add Rat.mul Rat.sub Rat.inv Rat.ofScientific in
/-- Witness for C2 at a concrete input: the 1D entry of the trailing-returns
result reports the return against the latest point one calendar day back. -/
theorem C2_witness :
    lookupA "1D" (calculateTrailingReturns
        (toSeries [[("D", RawValue.date (some 0)), ("N", RawValue.num (.fin 100))],
                   [("D", RawValue.date (some 86400000)), ("N", RawValue.num (.fin 50))]]
          "D" "N")).periods
      = some ((latestAtOrBefore
            (toSeries [[("D", RawValue.date (some 0)), ("N", RawValue.num (.fin 100))],
                       [("D", RawValue.date (some 86400000)), ("N", RawValue.num (.fin 50))]]
              "D" "N")
            ((⟨86400000, JSNum.fin 50, JSNum.fin 50, JSNum.fin (-50)⟩ : SPoint).ms
              - ("1D", (1 : Int)).2 * 86400000)).map
          (fun past => jsSub (jsDiv
            (⟨86400000, JSNum.fin 50, JSNum.fin 50, JSNum.fin (-50)⟩ : SPoint).nav
            past.nav) (.fin 1))) :=
  (C2_trailing_windows
    [[("D", RawValue.date (some 0)), ("N", RawValue.num (.fin 100))],
     [("D", RawValue.date (some 86400000)), ("N", RawValue.num (.fin 50))]]
    "D" "N" (by decide) ⟨86400000, .fin 50, .fin 50, .fin (-50)⟩ (by decide)
    ("1D", 1) (by decide)).1

/- ### Claim C3: degenerate series (corrected: one point still yields values). -/

unseal Rat.add Rat.mul Rat.sub Rat.inv Rat.ofScientific in
/-- Counterexample for C3: a series with exactly one clean point does NOT
report every analytic unavailable — SI, YTD, DD and MaxDD all come out as
concrete numbers (0 / 0%). -/
theorem C3_counterexample :
    ¬ ∀ (rows : List Row) (dk nk : String),
        (toSeries rows dk nk).length ≤ 1 →
        (calculateTrailingReturns (toSeries rows dk nk)).si = none := by
  intro h
  have h1 := h [[("D", RawValue.date (some 0)), ("N", RawValue.num (.fin 100))]]
    "D" "N" (by decide)
  exact absurd h1 (by decide)

theorem findClosest_single (pt : SPoint) (d : Int) (hd : 0 < d) :
    findClosest [pt] pt.ms d = none := by
  unfold findClosest
  have hpos : 0 < d * 86400000 := by positivity
  have hlt : ¬ (pt.ms ≤ pt.ms - d * 86400000) := by omega
  simp only [List.reverse_singleton]
  rw [List.find?_cons_of_neg _ (by simpa using hlt)]
  rfl

theorem jsMakeDate_jan1 (y : Int) :
    jsMakeDate y 0 1 0 0 0
      = (if validMs (daysFromCivil (if 0 ≤ y ∧ y ≤ 99 then y + 1900 else y) 1 1 * 86400000)
         then some (daysFromCivil (if 0 ≤ y ∧ y ≤ 99 then y + 1900 else y) 1 1 * 86400000)
         else none) := by
  unfold jsMakeDate
  norm_num

theorem calcTR_single (pt : SPoint) :
    calculateTrailingReturns [pt] =
      { ytd := calculateYTD [pt]
        periods := lookbackPeriods.map (fun ld => (ld.1, none))
        si := some (jsSub (jsDiv pt.nav pt.nav) (.fin 1))
        dd := some (jsDiv pt.drawdown (.fin 100))
        maxDD := some (jsDiv (jsMinList [pt.drawdown]) (.fin 100)) } := by
  unfold calculateTrailingReturns
  simp only [List.getLast?_singleton, Option.getD_some]
  have hper : (lookbackPeriods.map fun ld =>
        (ld.1, (findClosest [pt] pt.ms ld.2).map fun past =>
                  jsSub (jsDiv pt.nav past.nav) (.fin 1)))
      = lookbackPeriods.map (fun ld => (ld.1, (none : Option JSNum))) := by
    refine List.map_congr_left ?_
    intro ld hld
    have hdpos : 0 < ld.2 := by
      simp only [lookbackPeriods, List.mem_cons, List.not_mem_nil, or_false] at hld
      rcases hld with h | h | h | h | h | h | h | h <;> rw [h] <;> norm_num
    rw [findClosest_single pt ld.2 hdpos]
    rfl
  rw [hper]
  rfl

theorem calculateYTD_single_remap (pt : SPoint)
    (h0 : 0 ≤ yearOf pt.ms) (h1 : yearOf pt.ms ≤ 99) :
    calculateYTD [pt] = none := by
  unfold calculateYTD
  simp only [List.getLast?_singleton]
  rw [jsMakeDate_jan1]
  rw [if_pos (show 0 ≤ yearOf pt.ms ∧ yearOf pt.ms ≤ 99 from ⟨h0, h1⟩)]
  rw [if_pos (jan1_remap_validMs (yearOf pt.ms) h0 h1)]
  dsimp only
  have hlt : ¬ (daysFromCivil (yearOf pt.ms + 1900) 1 1 * 86400000 ≤ pt.ms) :=
    not_le.mpr (remap_year_start_after pt.ms h0 h1)
  rw [List.find?_cons_of_neg _ (by simpa using hlt)]
  rfl

theorem calculateYTD_single_noremap (pt : SPoint)
    (h : ¬ (0 ≤ yearOf pt.ms ∧ yearOf pt.ms ≤ 99))
    (hv : validMs (daysFromCivil (yearOf pt.ms) 1 1 * 86400000) = true) :
    calculateYTD [pt] = some (jsSub (jsDiv pt.nav pt.nav) (.fin 1)) := by
  unfold calculateYTD
  simp only [List.getLast?_singleton]
  rw [jsMakeDate_jan1]
  rw [if_neg h]
  rw [if_pos hv]
  dsimp only
  have hle : daysFromCivil (yearOf pt.ms) 1 1 * 86400000 ≤ pt.ms := jan1_le_self pt.ms
  rw [List.find?_cons_of_pos _ (by simpa using hle)]

theorem calculateYTD_single_invalid (pt : SPoint)
    (h : ¬ (0 ≤ yearOf pt.ms ∧ yearOf pt.ms ≤ 99))
    (hv : validMs (daysFromCivil (yearOf pt.ms) 1 1 * 86400000) = false) :
    calculateYTD [pt] = none := by
  unfold calculateYTD
  simp only [List.getLast?_singleton]
  rw [jsMakeDate_jan1]
  rw [if_neg h]
  rw [if_neg (show ¬ validMs (daysFromCivil (yearOf pt.ms) 1 1 * 86400000) = true from by
    rw [hv]; exact Bool.false_ne_true)]

/-- Claim C3 (amended): on an empty series every analytic is unavailable, and
on a one-point series the eight trailing-window returns are unavailable; but
since-inception, current drawdown and max drawdown are always reported as
concrete values, and YTD is reported as the value 0 exactly when the point's
year is outside 0–99 and January 1 of that year is a representable date —
for years 0–99 the `Date(y, 0, 1)` constructor remaps the year start to
1900+y, which lies after the point, so YTD alone is unavailable (likewise
when the year start is out of the `Date` range). No exception is modelled:
both functions are total. -/
theorem C3_amended_degenerate (pt : SPoint) :
    calculateTrailingReturns [] = emptyTrailing
    ∧ (calculateTrailingReturns [pt]).periods = lookbackPeriods.map (fun ld => (ld.1, none))
    ∧ (calculateTrailingReturns [pt]).si = some (jsSub (jsDiv pt.nav pt.nav) (.fin 1))
    ∧ (calculateTrailingReturns [pt]).dd = some (jsDiv pt.drawdown (.fin 100))
    ∧ (calculateTrailingReturns [pt]).maxDD = some (jsDiv (jsMinList [pt.drawdown]) (.fin 100))
    ∧ (0 ≤ yearOf pt.ms ∧ yearOf pt.ms ≤ 99 →
        (calculateTrailingReturns [pt]).ytd = none)
    ∧ (¬ (0 ≤ yearOf pt.ms ∧ yearOf pt.ms ≤ 99) →
        validMs (daysFromCivil (yearOf pt.ms) 1 1 * 86400000) = true →
        (calculateTrailingReturns [pt]).ytd = some (jsSub (jsDiv pt.nav pt.nav) (.fin 1)))
    ∧ (¬ (0 ≤ yearOf pt.ms ∧ yearOf pt.ms ≤ 99) →
        validMs (daysFromCivil (yearOf pt.ms) 1 1 * 86400000) = false →
        (calculateTrailingReturns [pt]).ytd = none) := by
  have hcr := calcTR_single pt
  refine ⟨rfl, ?_, ?_, ?_, ?_, ?_, ?_, ?_⟩
  · rw [hcr]
  · rw [hcr]
  · rw [hcr]
  · rw [hcr]
  · intro h
    rw [hcr]
    exact calculateYTD_single_remap pt h.1 h.2
  · intro h hv
    rw [hcr]
    exact calculateYTD_single_noremap pt h hv
  · intro h hv
    rw [hcr]
    exact calculateYTD_single_invalid pt h hv

/-- Witness for C3 at a concrete one-point series (year 1970, no constructor
remap): the windowed returns are unavailable while YTD is reported as 0. -/
theorem C3_witness :
    (calculateTrailingReturns [(⟨0, JSNum.fin 100, JSNum.fin 100, JSNum.fin 0⟩ : SPoint)]).ytd
      = some (jsSub (jsDiv (JSNum.fin 100) (JSNum.fin 100)) (JSNum.fin 1)) :=
  (C3_amended_degenerate ⟨0, .fin 100, .fin 100, .fin 0⟩).2.2.2.2.2.2.1
    (by decide) (by decide)

/- ### Claim C6: the monthly grid. -/

theorem lastByMonth_lookup (series : List SPoint) (k : Int × Int) :
    lookupA k (lastByMonth series) = monthRep series k := by
  have h := lookupA_foldl_mapSet (fun p : SPoint => (yearOf p.ms, monthOf p.ms))
      (fun p : SPoint => p.nav) k series []
  unfold lastByMonth monthRep
  rw [h]
  cases hl : (series.filter (fun p => decide ((yearOf p.ms, monthOf p.ms) = k))).getLast? with
  | some q => rfl
  | none => simp [lookupA]

theorem monthRep_isSome_iff (series : List SPoint) (k : Int × Int) :
    (monthRep series k).isSome = true ↔ ∃ p ∈ series, (yearOf p.ms, monthOf p.ms) = k := by
  unfold monthRep
  constructor
  · intro hs
    rcases Option.isSome_iff_exists.mp hs with ⟨v, hv⟩
    rcases Option.map_eq_some'.mp hv with ⟨q, hq, _⟩
    have hqmem := mem_of_getLast?_eq_some hq
    rcases List.mem_filter.mp hqmem with ⟨hq1, hq2⟩
    exact ⟨q, hq1, by simpa using hq2⟩
  · rintro ⟨p, hp, hk⟩
    have hne : series.filter (fun p => decide ((yearOf p.ms, monthOf p.ms) = k)) ≠ [] := by
      intro hnil
      have hmem : p ∈ series.filter (fun p => decide ((yearOf p.ms, monthOf p.ms) = k)) :=
        List.mem_filter.mpr ⟨hp, by simpa using hk⟩
      rw [hnil] at hmem
      cases hmem
    have hs : (series.filter (fun p => decide ((yearOf p.ms, monthOf p.ms) = k))).getLast?.isSome
        = true := by
      rw [List.getLast?_isSome]
      exact hne
    rcases Option.isSome_iff_exists.mp hs with ⟨q, hq⟩
    simp [hq]

theorem mem_mrKeys_iff (series : List SPoint) (k : Int × Int) :
    k ∈ mrKeys series ↔ (monthRep series k).isSome = true := by
  unfold mrKeys
  rw [List.Perm.mem_iff (List.perm_insertionSort _ _)]
  rw [← lastByMonth_lookup]
  constructor
  · intro hk
    rcases List.mem_map.mp hk with ⟨e, he, hek⟩
    have hany : (lastByMonth series).any (fun x => decide (x.1 = k)) = true :=
      List.any_eq_true.mpr ⟨e, he, by simp [hek]⟩
    rw [any_key_eq_isSome] at hany
    exact hany
  · intro hs
    rcases Option.isSome_iff_exists.mp hs with ⟨v, hv⟩
    exact List.mem_map.mpr ⟨(k, v), lookupA_eq_some_mem hv, rfl⟩

theorem find?_map_eq {α β : Type} (f : α → β) (p : β → Bool) :
    ∀ l : List α, (l.map f).find? p = (l.find? (fun a => p (f a))).map f := by
  intro l
  induction l with
  | nil => rfl
  | cons x xs ih =>
      simp only [List.map_cons, List.find?]
      cases h : p (f x) with
      | true => rfl
      | false => exact ih

theorem find?_key_mem {α : Type} [DecidableEq α] (a : α) :
    ∀ l : List α, l.find? (fun k => decide (k = a)) = if a ∈ l then some a else none := by
  intro l
  induction l with
  | nil => simp
  | cons x xs ih =>
      by_cases hx : x = a
      · subst hx
        rw [List.find?_cons_of_pos _ (by simp), if_pos (List.mem_cons_self x xs)]
      · rw [List.find?_cons_of_neg _ (by simpa using hx), ih]
        by_cases hm : a ∈ xs
        · rw [if_pos hm, if_pos (List.mem_cons.mpr (Or.inr hm))]
        · have hnot : a ∉ x :: xs := by
            rw [List.mem_cons]
            push_neg
            exact ⟨fun h => hx h.symm, hm⟩
          rw [if_neg hm, if_neg hnot]

theorem mrRows_find? (series : List SPoint) (y m : Int) :
    (mrRows series).find? (fun r => decide (r.year = y ∧ r.month = m))
      = if (y, m) ∈ mrKeys series then some (mrRowFn series (y, m)) else none := by
  unfold mrRows
  rw [find?_map_eq]
  have hcomp : (fun k : Int × Int =>
        decide ((mrRowFn series k).year = y ∧ (mrRowFn series k).month = m))
      = fun k : Int × Int => decide (k = (y, m)) := by
    funext k
    show decide (k.1 = y ∧ k.2 = m) = decide (k = (y, m))
    refine decide_eq_decide.mpr ?_
    rw [Prod.ext_iff]
  rw [hcomp, find?_key_mem]
  by_cases h : (y, m) ∈ mrKeys series <;> simp [h]

theorem mrYearRow_cells (series : List SPoint) (y : Int) :
    (mrYearRow series y).cells
      = (List.range 12).map (fun idx : Nat => specMonthCell series y ((idx : Int) + 1)) := by
  unfold mrYearRow
  dsimp only
  refine List.map_congr_left ?_
  intro idx _
  show (match (mrRows series).find?
          (fun r => decide (r.year = y ∧ r.month = (idx : Int) + 1)) with
        | some rr => rr.ret
        | none => none) = specMonthCell series y ((idx : Int) + 1)
  rw [mrRows_find?]
  by_cases hk : ((y, (idx : Int) + 1)) ∈ mrKeys series
  · rw [if_pos hk]
    have hsome : (monthRep series (y, (idx : Int) + 1)).isSome = true :=
      (mem_mrKeys_iff _ _).mp hk
    rcases Option.isSome_iff_exists.mp hsome with ⟨val, hval⟩
    show (mrRowFn series (y, (idx : Int) + 1)).ret = _
    unfold mrRowFn specMonthCell
    dsimp only
    simp only [lastByMonth_lookup, hval, Option.getD_some]
  · rw [if_neg hk]
    have hnone : monthRep series (y, (idx : Int) + 1) = none := by
      rcases h : monthRep series (y, (idx : Int) + 1) with _ | v
      · rfl
      · exact absurd ((mem_mrKeys_iff _ _).mpr (by rw [h]; rfl)) hk
    unfold specMonthCell
    rw [hnone]

theorem foldl_ytdStep (cells : List (Option JSNum)) :
    ∀ (a : JSNum) (b : Bool),
      cells.foldl ytdStep (a, b)
        = ((cells.filterMap id).foldl (fun x v => jsMul x (jsAdd (.fin 1) v)) a,
           b || !(cells.filterMap id).isEmpty) := by
  induction cells with
  | nil => intro a b; simp
  | cons c cs ih =>
      intro a b
      cases c with
      | none =>
          rw [List.foldl_cons]
          show cs.foldl ytdStep (a, b) = _
          rw [ih]
          simp [List.filterMap_cons]
      | some v =>
          rw [List.foldl_cons]
          show cs.foldl ytdStep (jsMul a (jsAdd (.fin 1) v), true) = _
          rw [ih]
          simp [List.filterMap_cons]

theorem ytd_of_cells (cells : List (Option JSNum)) :
    (if (cells.foldl ytdStep (.fin 1, false)).2
     then some (jsSub (cells.foldl ytdStep (.fin 1, false)).1 (.fin 1)) else none)
      = specYTD cells := by
  rw [foldl_ytdStep]
  unfold specYTD
  rcases hfm : cells.filterMap id with _ | ⟨r, rs⟩
  · simp
  · simp

theorem mrYearRow_ytd (series : List SPoint) (y : Int) :
    (mrYearRow series y).ytd = specYTD (mrYearRow series y).cells :=
  ytd_of_cells ((mrYearRow series y).cells)

theorem dedupKeepFirst_nodup {α : Type} [DecidableEq α] :
    ∀ l : List α, (dedupKeepFirst l).Nodup := by
  intro l
  induction l with
  | nil => exact List.nodup_nil
  | cons x xs ih =>
      rw [dedupKeepFirst]
      refine List.nodup_cons.mpr ⟨?_, ?_⟩
      · intro hx
        have hdec := List.of_mem_filter hx
        simp at hdec
      · exact List.Nodup.filter _ ih

theorem mem_dedupKeepFirst {α : Type} [DecidableEq α] (a : α) :
    ∀ l : List α, a ∈ dedupKeepFirst l ↔ a ∈ l := by
  intro l
  induction l with
  | nil => simp [dedupKeepFirst]
  | cons x xs ih =>
      rw [dedupKeepFirst]
      by_cases hax : a = x
      · subst hax
        simp
      · simp only [List.mem_cons, List.mem_filter, ih]
        constructor
        · rintro (h | ⟨h, _⟩)
          · exact Or.inl h
          · exact Or.inr h
        · rintro (h | h)
          · exact Or.inl h
          · exact Or.inr ⟨h, by simpa using hax⟩

theorem pairwise_lt_of_le_nodup : ∀ l : List Int,
    List.Pairwise (fun a b => b ≤ a) l → l.Nodup → List.Pairwise (fun a b => b < a) l := by
  intro l
  induction l with
  | nil => intro _ _; exact List.Pairwise.nil
  | cons x xs ih =>
      intro hle hnd
      rw [List.pairwise_cons] at hle ⊢
      rw [List.nodup_cons] at hnd
      refine ⟨?_, ih hle.2 hnd.2⟩
      intro b hb
      have h1 := hle.1 b hb
      have h2 : x ≠ b := fun he => hnd.1 (he ▸ hb)
      omega

theorem mem_mrYears_iff (series : List SPoint) (y : Int) :
    y ∈ mrYears series ↔ ∃ p ∈ series, yearOf p.ms = y := by
  unfold mrYears
  rw [List.Perm.mem_iff (List.perm_insertionSort _ _), mem_dedupKeepFirst]
  unfold mrRows
  rw [List.map_map]
  simp only [List.mem_map, Function.comp]
  constructor
  · rintro ⟨k, hk, hky⟩
    have hy : k.1 = y := hky
    have hex := (monthRep_isSome_iff series k).mp ((mem_mrKeys_iff series k).mp hk)
    rcases hex with ⟨p, hp, hpk⟩
    refine ⟨p, hp, ?_⟩
    have h1 : yearOf p.ms = k.1 := congrArg Prod.fst hpk
    rw [h1, hy]
  · rintro ⟨p, hp, hpy⟩
    refine ⟨(yearOf p.ms, monthOf p.ms), ?_, hpy⟩
    exact (mem_mrKeys_iff series _).mpr
      ((monthRep_isSome_iff series _).mpr ⟨p, hp, rfl⟩)

unseal Rat.add Rat.mul Rat.sub Rat.inv Rat.ofScientific in
/-- **C6**. For every built series: the bucket map keeps the nav of the last
point of each (year, month) bucket, which by the series' strict date
sortedness is the last-dated point of the bucket; the table's years are
strictly descending and are exactly the years occurring in the series; each
year row's twelve cells follow the claim's month-over-month formula on the
bucket representatives (previous calendar month, December of the previous
year for January, unavailable when the preceding month is absent or zero);
and each year's YTD compounds `1 + r` over the present cells in
chronological order minus one, unavailable when no month of the year has a
return. -/
theorem C6_monthly_grid (rows : List Row) (dk nk : String) :
    (∀ k, lookupA k (lastByMonth (toSeries rows dk nk)) = monthRep (toSeries rows dk nk) k)
    ∧ (∀ k q, ((toSeries rows dk nk).filter
          (fun p => decide ((yearOf p.ms, monthOf p.ms) = k))).getLast? = some q →
        ∀ p ∈ toSeries rows dk nk, (yearOf p.ms, monthOf p.ms) = k → p.ms ≤ q.ms)
    ∧ List.Pairwise (fun r1 r2 : YearRow => r2.year < r1.year)
        (monthlyReturns (toSeries rows dk nk)).1
    ∧ (∀ y : Int, (∃ yr ∈ (monthlyReturns (toSeries rows dk nk)).1, yr.year = y)
        ↔ ∃ p ∈ toSeries rows dk nk, yearOf p.ms = y)
    ∧ (∀ yr ∈ (monthlyReturns (toSeries rows dk nk)).1,
        yr.cells = (List.range 12).map
          (fun idx : Nat => specMonthCell (toSeries rows dk nk) yr.year ((idx : Int) + 1))
        ∧ yr.ytd = specYTD yr.cells) := by
  have hsorted := toSeries_pairwise_lt rows dk nk
  refine ⟨fun k => lastByMonth_lookup _ k, ?_, ?_, ?_, ?_⟩
  · intro k q hq p hp hpk
    have hmem : p ∈ (toSeries rows dk nk).filter
        (fun p => decide ((yearOf p.ms, monthOf p.ms) = k)) :=
      List.mem_filter.mpr ⟨hp, by simpa using hpk⟩
    have hps : List.Pairwise (fun a b : SPoint => a.ms < b.ms)
        ((toSeries rows dk nk).filter
          (fun p => decide ((yearOf p.ms, monthOf p.ms) = k))) :=
      List.Pairwise.sublist (List.filter_sublist _) hsorted
    rcases pairwise_getLast?_max hps hmem hq with h | h
    · rw [h]
    · exact le_of_lt h
  · rcases hs : toSeries rows dk nk with _ | ⟨s0, tl⟩
    · exact List.Pairwise.nil
    · show List.Pairwise _ ((mrYears (s0 :: tl)).map (mrYearRow (s0 :: tl)))
      rw [List.pairwise_map]
      have h1 : List.Pairwise (fun a b : Int => b ≤ a) (mrYears (s0 :: tl)) := by
        unfold mrYears
        haveI : IsTotal Int (fun a b => b ≤ a) := ⟨fun a b => le_total b a⟩
        haveI : IsTrans Int (fun a b => b ≤ a) := ⟨fun a b c hab hbc => le_trans hbc hab⟩
        exact List.sorted_insertionSort _ _
      have h2 : (mrYears (s0 :: tl)).Nodup := by
        unfold mrYears
        exact ((List.perm_insertionSort _ _).nodup_iff).mpr (dedupKeepFirst_nodup _)
      exact pairwise_lt_of_le_nodup _ h1 h2
  · intro y
    rcases hs : toSeries rows dk nk with _ | ⟨s0, tl⟩
    · constructor
      · rintro ⟨yr, hyr, _⟩
        cases hyr
      · rintro ⟨p, hp, _⟩
        cases hp
    · constructor
      · rintro ⟨yr, hyr, hy⟩
        rcases List.mem_map.mp hyr with ⟨y', hy', rfl⟩
        have hyy : y' = y := hy
        subst hyy
        exact (mem_mrYears_iff _ y').mp hy'
      · intro hex
        exact ⟨mrYearRow (s0 :: tl) y,
          List.mem_map_of_mem _ ((mem_mrYears_iff _ y).mpr hex), rfl⟩
  · rcases hs : toSeries rows dk nk with _ | ⟨s0, tl⟩
    · intro yr hyr
      cases hyr
    · intro yr hyr
      rcases List.mem_map.mp hyr with ⟨y, hy, rfl⟩
      exact ⟨mrYearRow_cells (s0 :: tl) y, mrYearRow_ytd (s0 :: tl) y⟩

/- ### Claim C7: column detection. -/

theorem argmaxFirst_ne_none (cnt : Score → Nat) (x : Score) (xs : List Score) :
    argmaxFirst cnt (x :: xs) ≠ none := by
  simp only [argmaxFirst]
  rcases hm : argmaxFirst cnt xs with _ | ⟨y⟩
  · dsimp only
    simp
  · dsimp only
    split_ifs <;> simp

theorem argmaxFirst_mem (cnt : Score → Nat) :
    ∀ {l : List Score} {s : Score}, argmaxFirst cnt l = some s → s ∈ l := by
  intro l
  induction l with
  | nil => intro s h; exact absurd h (by simp [argmaxFirst])
  | cons x xs ih =>
      intro s h
      simp only [argmaxFirst] at h
      rcases hm : argmaxFirst cnt xs with _ | ⟨y⟩ <;> rw [hm] at h <;> dsimp only at h
      · injection h with h
        subst h
        exact List.mem_cons_self _ _
      · by_cases hlt : cnt x < cnt y
        · rw [if_pos hlt] at h
          injection h with h
          subst h
          exact List.mem_cons_of_mem _ (ih hm)
        · rw [if_neg hlt] at h
          injection h with h
          subst h
          exact List.mem_cons_self _ _

theorem head?_sortByCountDesc (cnt : Score → Nat) :
    ∀ l : List Score, (sortByCountDesc cnt l).head? = argmaxFirst cnt l := by
  intro l
  induction l with
  | nil => rfl
  | cons a l ih =>
      show (List.orderedInsert _ a (List.insertionSort _ l)).head? = _
      rcases h : List.insertionSort (fun x y : Score => cnt y ≤ cnt x) l with _ | ⟨b, t⟩
      · have hp := List.perm_insertionSort (fun x y : Score => cnt y ≤ cnt x) l
        rw [h] at hp
        have hl : l = [] := List.nil_perm.mp hp
        subst hl
        rfl
      · unfold sortByCountDesc at ih
        rw [h] at ih
        simp only [List.head?_cons] at ih
        have ihs : argmaxFirst cnt l = some b := ih.symm
        show (List.orderedInsert _ a (b :: t)).head? = _
        rw [List.orderedInsert]
        simp only [argmaxFirst]
        rw [ihs]
        dsimp only
        by_cases hba : cnt b ≤ cnt a
        · rw [if_pos hba, if_neg (by omega)]
          rfl
        · rw [if_neg hba, if_pos (by omega)]
          rfl

theorem argmaxFirst_filter (cnt : Score → Nat) (t : Nat) :
    ∀ {l : List Score} {s : Score},
      argmaxFirst cnt (l.filter (fun x => decide (t ≤ cnt x))) = some s →
      argmaxFirst cnt l = some s := by
  intro l
  induction l with
  | nil => intro s h; exact absurd h (by simp [argmaxFirst])
  | cons a l ih =>
      intro s h
      rw [List.filter_cons] at h
      by_cases hpa : t ≤ cnt a
      · rw [if_pos (by simpa using hpa)] at h
        simp only [argmaxFirst] at h ⊢
        rcases hf : argmaxFirst cnt (l.filter fun x => decide (t ≤ cnt x)) with _ | ⟨y⟩
          <;> rw [hf] at h <;> dsimp only at h
        · injection h with h
          subst h
          rcases hg : argmaxFirst cnt l with _ | ⟨z⟩
          · dsimp only
          · dsimp only
            have hz : ¬ (cnt a < cnt z) := by
              intro hlt
              have hzt : t ≤ cnt z := le_trans hpa (le_of_lt hlt)
              have hzmem := argmaxFirst_mem cnt hg
              have hzf : z ∈ l.filter (fun x => decide (t ≤ cnt x)) :=
                List.mem_filter.mpr ⟨hzmem, by simpa using hzt⟩
              have hnil : l.filter (fun x => decide (t ≤ cnt x)) = [] := by
                cases hc : l.filter (fun x => decide (t ≤ cnt x)) with
                | nil => rfl
                | cons u us =>
                    rw [hc] at hf
                    exact absurd hf (argmaxFirst_ne_none cnt u us)
              rw [hnil] at hzf
              cases hzf
            rw [if_neg hz]
        · have hl := ih hf
          rw [hl]
          dsimp only
          exact h
      · rw [if_neg (by simpa using hpa)] at h
        have hl := ih h
        simp only [argmaxFirst]
        rw [hl]
        dsimp only
        have hsmem := argmaxFirst_mem cnt h
        have hts : t ≤ cnt s := by simpa using (List.mem_filter.mp hsmem).2
        rw [if_pos (by omega)]

theorem codeSelect_eq_spec (cnt : Score → Nat) (threshold : Nat) (ht : 1 ≤ threshold)
    (scores : List Score) :
    codeSelect cnt threshold scores = selectColumnSpec cnt threshold scores := by
  unfold codeSelect selectColumnSpec
  dsimp only
  rw [head?_sortByCountDesc, head?_sortByCountDesc]
  rcases hf : argmaxFirst cnt (scores.filter fun s => decide (threshold ≤ cnt s)) with _ | ⟨s⟩
  · simp only [Option.map_none']
    rw [if_pos (show keyFalsy none = true from rfl)]
  · simp only [Option.map_some']
    by_cases hks : keyFalsy (some s.key) = true
    · rw [if_pos hks]
      have hov : argmaxFirst cnt scores = some s := argmaxFirst_filter cnt threshold hf
      rw [hov]
      dsimp only
      have hmem := argmaxFirst_mem cnt hf
      have hts : threshold ≤ cnt s := by simpa using (List.mem_filter.mp hmem).2
      rw [if_pos (by omega)]
    · rw [if_neg hks]

/-- **C7**. `detectColumns` equals, for every row sequence, the claim's
selection procedure applied to the per-key scores of the first
`min(50, rowCount)` rows: the highest-count column among those meeting the
`ceil(0.6 × sampleSize)` threshold (ties broken by first key occurrence),
else the single highest nonzero-count column, else none — for the date
column on date-like counts and the value column on numeric-like counts; on
an empty row sequence both selections are absent. -/
theorem C7_detect_columns (rows : List Row) :
    detectColumns rows
      = (selectColumnSpec (·.dateCount) ((3 * min rows.length 50 + 4) / 5) (scoreKeys rows),
         selectColumnSpec (·.numCount) ((3 * min rows.length 50 + 4) / 5) (scoreKeys rows)) := by
  cases rows with
  | nil => rfl
  | cons r rs =>
      show (codeSelect (·.dateCount) ((3 * min (r :: rs).length 50 + 4) / 5) (scoreKeys (r :: rs)),
            codeSelect (·.numCount) ((3 * min (r :: rs).length 50 + 4) / 5) (scoreKeys (r :: rs)))
          = _
      have h1 : 1 ≤ (r :: rs).length := by simp
      have h2 : 1 ≤ min (r :: rs).length 50 := le_min h1 (by norm_num)
      have ht : 1 ≤ (3 * min (r :: rs).length 50 + 4) / 5 := by omega
      rw [codeSelect_eq_spec _ _ ht, codeSelect_eq_spec _ _ ht]
